import Mathlib

/-!
Shallow embedding of the `aion2-img-captcha` OCR task coordinator
(`src/gemini.py`), together with proofs checking the natural-language
specification against it.

Modelling conventions:
* Python byte strings are `List Nat` (each element intended `< 256`).
* Wall-clock instants (`time.time()` floats) are integers `ℤ`: only the
  order and differences of instants matter to the coordinator.
* Python dicts are association lists `List (String × α)` preserving
  insertion order (Python dicts are insertion-ordered; assigning to an
  existing key keeps its position), with no duplicate keys.
* `hashlib.sha256` / `hashlib.md5` are implemented bit-faithfully over
  `Nat` arithmetic mod `2^32`.
* `asyncio` critical sections become atomic state-transformer functions;
  the background task `_run_task` is split at its lock boundaries.
-/

/-! ## Word-level arithmetic (32-bit, as used by both hash functions) -/

def w32mod : Nat := 4294967296

def add32 (a b : Nat) : Nat := (a + b) % w32mod

/-- Right rotation of a 32-bit word. -/
def rotr32 (n x : Nat) : Nat := (x / 2 ^ n + x % 2 ^ n * 2 ^ (32 - n)) % w32mod

/-- Left rotation of a 32-bit word. -/
def rotl32 (n x : Nat) : Nat := (x % 2 ^ (32 - n) * 2 ^ n + x / 2 ^ (32 - n)) % w32mod

/-- Bitwise complement within 32 bits. -/
def not32 (x : Nat) : Nat := x ^^^ 4294967295

/-! ## Bytes, UTF-8 and hex digits -/

/-- UTF-8 encoding of a single scalar value (as produced by Python's
`str.encode("utf-8")`). -/
def charUtf8 (c : Char) : List Nat :=
  let n := c.toNat
  if n < 128 then [n]
  else if n < 2048 then [192 + n / 64, 128 + n % 64]
  else if n < 65536 then [224 + n / 4096, 128 + n / 64 % 64, 128 + n % 64]
  else [240 + n / 262144, 128 + n / 4096 % 64, 128 + n / 64 % 64, 128 + n % 64]

def strBytes (s : String) : List Nat := (s.data.map charUtf8).flatten

/-- The `n` big-endian bytes of `v` (most significant first). -/
def beBytes : Nat → Nat → List Nat
  | 0, _ => []
  | n + 1, v => beBytes n (v / 256) ++ [v % 256]

/-- The `n` little-endian bytes of `v` (least significant first). -/
def leBytes : Nat → Nat → List Nat
  | 0, _ => []
  | n + 1, v => v % 256 :: leBytes n (v / 256)

/-- Hex digit characters, lower case as `hexdigest` prints them. -/
def hexChar (d : Nat) : Char :=
  match d with
  | 0 => '0' | 1 => '1' | 2 => '2' | 3 => '3' | 4 => '4'
  | 5 => '5' | 6 => '6' | 7 => '7' | 8 => '8' | 9 => '9'
  | 10 => 'a' | 11 => 'b' | 12 => 'c' | 13 => 'd' | 14 => 'e'
  | _ => 'f'

/-- The eight hex-digit values of a 32-bit word, most significant first. -/
def w32DigitsBE (w : Nat) : List Nat :=
  [w / 16 ^ 7 % 16, w / 16 ^ 6 % 16, w / 16 ^ 5 % 16, w / 16 ^ 4 % 16,
   w / 16 ^ 3 % 16, w / 16 ^ 2 % 16, w / 16 % 16, w % 16]

/-- The eight hex-digit values of a 32-bit word printed byte-wise
little-endian (as MD5's digest is). -/
def w32DigitsLE (w : Nat) : List Nat :=
  [w % 256 / 16, w % 16,
   w / 256 % 256 / 16, w / 256 % 16,
   w / 65536 % 256 / 16, w / 65536 % 16,
   w / 16777216 % 256 / 16, w / 16777216 % 16]

/-- Split a byte list into 64-byte chunks; `fuel` bounds the recursion and
is always called with the list length (enough since every step consumes at
least one byte of a nonempty list). Structural recursion on the fuel keeps
the definition kernel-reducible. -/
def chunks64 : Nat → List Nat → List (List Nat)
  | 0, _ => []
  | _ + 1, [] => []
  | fuel + 1, l => l.take 64 :: chunks64 fuel (l.drop 64)

/-! ## SHA-256 (for the per-credential component of the task key) -/

def sha256K : List Nat :=
  [1116352408, 1899447441, 3049323471, 3921009573, 961987163, 1508970993,
   2453635748, 2870763221, 3624381080, 310598401, 607225278, 1426881987,
   1925078388, 2162078206, 2614888103, 3248222580, 3835390401, 4022224774,
   264347078, 604807628, 770255983, 1249150122, 1555081692, 1996064986,
   2554220882, 2821834349, 2952996808, 3210313671, 3336571891, 3584528711,
   113926993, 338241895, 666307205, 773529912, 1294757372, 1396182291,
   1695183700, 1986661051, 2177026350, 2456956037, 2730485921, 2820302411,
   3259730800, 3345764771, 3516065817, 3600352804, 4094571909, 275423344,
   430227734, 506948616, 659060556, 883997877, 958139571, 1322822218,
   1537002063, 1747873779, 1955562222, 2024104815, 2227730452, 2361852424,
   2428436474, 2756734187, 3204031479, 3329325298]

structure Sha8 where
  a : Nat
  b : Nat
  c : Nat
  d : Nat
  e : Nat
  f : Nat
  g : Nat
  h : Nat
deriving Repr, DecidableEq

def sha256Init : Sha8 :=
  ⟨1779033703, 3144134277, 1013904242, 2773480762, 1359893119, 2600822924, 528734635, 1541459225⟩

/-- SHA-256 padding: `0x80`, zeros to 56 mod 64, then the bit length as
eight big-endian bytes. -/
def sha256Pad (msg : List Nat) : List Nat :=
  msg ++ 128 :: List.replicate ((119 - msg.length % 64) % 64) 0 ++ beBytes 8 (8 * msg.length)

/-- Big-endian 32-bit words of a byte chunk. -/
def bytesToW32BE : List Nat → List Nat
  | b0 :: b1 :: b2 :: b3 :: t => (((b0 * 256 + b1) * 256 + b2) * 256 + b3) :: bytesToW32BE t
  | _ => []

def smallSigma0 (x : Nat) : Nat := rotr32 7 x ^^^ rotr32 18 x ^^^ x / 2 ^ 3
def smallSigma1 (x : Nat) : Nat := rotr32 17 x ^^^ rotr32 19 x ^^^ x / 2 ^ 10
def bigSigma0 (x : Nat) : Nat := rotr32 2 x ^^^ rotr32 13 x ^^^ rotr32 22 x
def bigSigma1 (x : Nat) : Nat := rotr32 6 x ^^^ rotr32 11 x ^^^ rotr32 25 x

/-- One message-schedule extension step: appends `w[i-16..]`-combined word. -/
def sha256NextW (w : List Nat) : Nat :=
  let i := w.length
  (smallSigma1 (w.getD (i - 2) 0) + w.getD (i - 7) 0 +
   smallSigma0 (w.getD (i - 15) 0) + w.getD (i - 16) 0) % w32mod

def sha256Extend : Nat → List Nat → List Nat
  | 0, w => w
  | n + 1, w => sha256Extend n (w ++ [sha256NextW w])

def sha256Round (st : Sha8) (kw : Nat × Nat) : Sha8 :=
  let ch := (st.e &&& st.f) ^^^ (not32 st.e &&& st.g)
  let maj := (st.a &&& st.b) ^^^ (st.a &&& st.c) ^^^ (st.b &&& st.c)
  let t1 := (st.h + bigSigma1 st.e + ch + kw.1 + kw.2) % w32mod
  let t2 := (bigSigma0 st.a + maj) % w32mod
  ⟨(t1 + t2) % w32mod, st.a, st.b, st.c, (st.d + t1) % w32mod, st.e, st.f, st.g⟩

def sha256Compress (st : Sha8) (chunk : List Nat) : Sha8 :=
  let w := sha256Extend 48 (bytesToW32BE chunk)
  let r := (sha256K.zip w).foldl sha256Round st
  ⟨add32 st.a r.a, add32 st.b r.b, add32 st.c r.c, add32 st.d r.d,
   add32 st.e r.e, add32 st.f r.f, add32 st.g r.g, add32 st.h r.h⟩

def sha256Bytes (msg : List Nat) : Sha8 :=
  let p := sha256Pad msg
  (chunks64 p.length p).foldl sha256Compress sha256Init

/-- The 64 hex-digit values of the SHA-256 digest of the UTF-8 bytes of
a string. -/
def sha256HexDigits (s : String) : List Nat :=
  let r := sha256Bytes (strBytes s)
  w32DigitsBE r.a ++ w32DigitsBE r.b ++ w32DigitsBE r.c ++ w32DigitsBE r.d ++
  w32DigitsBE r.e ++ w32DigitsBE r.f ++ w32DigitsBE r.g ++ w32DigitsBE r.h

/-- Model of `hashlib.sha256(s.encode("utf-8")).hexdigest()`. -/
def sha256Hex (s : String) : String := String.mk ((sha256HexDigits s).map hexChar)

/-! ## MD5 (for the image content digest / external task id) -/

def md5K : List Nat :=
  [3614090360, 3905402710, 606105819, 3250441966, 4118548399, 1200080426,
   2821735955, 4249261313, 1770035416, 2336552879, 4294925233, 2304563134,
   1804603682, 4254626195, 2792965006, 1236535329, 4129170786, 3225465664,
   643717713, 3921069994, 3593408605, 38016083, 3634488961, 3889429448,
   568446438, 3275163606, 4107603335, 1163531501, 2850285829, 4243563512,
   1735328473, 2368359562, 4294588738, 2272392833, 1839030562, 4259657740,
   2763975236, 1272893353, 4139469664, 3200236656, 681279174, 3936430074,
   3572445317, 76029189, 3654602809, 3873151461, 530742520, 3299628645,
   4096336452, 1126891415, 2878612391, 4237533241, 1700485571, 2399980690,
   4293915773, 2240044497, 1873313359, 4264355552, 2734768916, 1309151649,
   4149444226, 3174756917, 718787259, 3951481745]

def md5S : List Nat :=
  [7, 12, 17, 22, 7, 12, 17, 22, 7, 12, 17, 22, 7, 12, 17, 22,
   5, 9, 14, 20, 5, 9, 14, 20, 5, 9, 14, 20, 5, 9, 14, 20,
   4, 11, 16, 23, 4, 11, 16, 23, 4, 11, 16, 23, 4, 11, 16, 23,
   6, 10, 15, 21, 6, 10, 15, 21, 6, 10, 15, 21, 6, 10, 15, 21]

/-- MD5 padding: same shape as SHA-256 but the length is little-endian. -/
def md5Pad (msg : List Nat) : List Nat :=
  msg ++ 128 :: List.replicate ((119 - msg.length % 64) % 64) 0 ++ leBytes 8 (8 * msg.length)

/-- Little-endian 32-bit words of a byte chunk. -/
def bytesToW32LE : List Nat → List Nat
  | b0 :: b1 :: b2 :: b3 :: t => (b0 + 256 * (b1 + 256 * (b2 + 256 * b3))) :: bytesToW32LE t
  | _ => []

def md5Round (m : List Nat) (st : Nat × Nat × Nat × Nat) (i : Nat) : Nat × Nat × Nat × Nat :=
  let (a, b, c, d) := st
  let f :=
    if i < 16 then (b &&& c) ||| (not32 b &&& d)
    else if i < 32 then (d &&& b) ||| (not32 d &&& c)
    else if i < 48 then b ^^^ c ^^^ d
    else c ^^^ (b ||| not32 d)
  let g :=
    if i < 16 then i
    else if i < 32 then (5 * i + 1) % 16
    else if i < 48 then (3 * i + 5) % 16
    else 7 * i % 16
  let fv := (f + a + md5K.getD i 0 + m.getD g 0) % w32mod
  (d, (b + rotl32 (md5S.getD i 0) fv) % w32mod, b, c)

def md5Compress (st : Nat × Nat × Nat × Nat) (chunk : List Nat) : Nat × Nat × Nat × Nat :=
  let m := bytesToW32LE chunk
  let r := (List.range 64).foldl (md5Round m) st
  (add32 st.1 r.1, add32 st.2.1 r.2.1, add32 st.2.2.1 r.2.2.1, add32 st.2.2.2 r.2.2.2)

def md5Init : Nat × Nat × Nat × Nat := (1732584193, 4023233417, 2562383102, 271733878)

/-- The 32 hex-digit values of the MD5 digest of a byte list. -/
def md5HexDigits (msg : List Nat) : List Nat :=
  let p := md5Pad msg
  let r := (chunks64 p.length p).foldl md5Compress md5Init
  w32DigitsLE r.1 ++ w32DigitsLE r.2.1 ++ w32DigitsLE r.2.2.1 ++ w32DigitsLE r.2.2.2

/-- Model of `hashlib.md5(data).hexdigest()`. -/
def md5Hex (msg : List Nat) : String := String.mk ((md5HexDigits msg).map hexChar)

/-! ## Code extraction (`extract_captcha`, `src/gemini.py` lines 165-168) -/

/-- The character class `[A-Za-z0-9]` of the extraction regex. -/
def isAlnumAscii (c : Char) : Bool :=
  (decide (65 ≤ c.toNat) && decide (c.toNat ≤ 90)) ||
  (decide (97 ≤ c.toNat) && decide (c.toNat ≤ 122)) ||
  (decide (48 ≤ c.toNat) && decide (c.toNat ≤ 57))

/-- Model of `re.search` with the pattern "five consecutive characters of
the class A-Z, a-z, 0-9": the leftmost window of five
consecutive alphanumeric characters, if any. -/
def find5Run : List Char → Option (List Char)
  | [] => none
  | c :: cs =>
    if decide (((c :: cs).take 5).length = 5) && ((c :: cs).take 5).all isAlnumAscii
    then some ((c :: cs).take 5)
    else find5Run cs

/-- Python's `str.strip()` whitespace class, restricted to its ASCII part
(the inputs at issue contain no exotic Unicode whitespace). -/
def isPySpace (c : Char) : Bool := [32, 9, 10, 11, 12, 13].contains c.toNat

/-- Python's `str.strip()`. -/
def pyStrip (s : String) : String :=
  String.mk (((s.data.dropWhile isPySpace).reverse.dropWhile isPySpace).reverse)

/-- Model of `extract_captcha` (`src/gemini.py`): return the regex match if present,
else the stripped input. -/
def extract_captcha (text : String) : String :=
  match find5Run text.data with
  | some w => String.mk w
  | none => pyStrip text

/-- The property of position `i` opening a window of five consecutive
alphanumeric characters in `l`. -/
def windowGood (l : List Char) (i : Nat) : Prop :=
  ((l.drop i).take 5).length = 5 ∧ ((l.drop i).take 5).all isAlnumAscii = true

instance (l : List Char) (i : Nat) : Decidable (windowGood l i) := by
  unfold windowGood; infer_instance

/-- The spec's reading of `extractCode` under which the scan looks for a
*maximal* run of *exactly* five alphanumerics: split the text into maximal
alphanumeric runs and take the first one of length exactly 5, else strip.
Written from the spec's words, to be compared with `extract_captcha`. -/
def splitAlnumRuns : List Char → List (List Char)
  | [] => []
  | c :: cs =>
    if isAlnumAscii c then
      match splitAlnumRuns cs, cs with
      | r :: rs, c2 :: _ =>
        if isAlnumAscii c2 then (c :: r) :: rs else [c] :: r :: rs
      | _, _ => [[c]]
    else splitAlnumRuns cs

/-- The code-extraction contract as the claim words it ("first maximal run
of exactly 5 consecutive alphanumeric characters, else the trimmed
input"). Written from the spec's words, to be compared with
`extract_captcha`. -/
def extractCodeClaim (s : String) : String :=
  match (splitAlnumRuns s.data).filter (fun r => decide (r.length = 5)) with
  | r :: _ => String.mk r
  | [] => pyStrip s

/-! ## Task coordinator state (`GeminiOcrService`) -/

/-- Configuration knobs of `GeminiOcrService.__init__`. `task_ttl_seconds`
and `max_entries` are Python ints, `call_timeout_seconds` a float
(modelled in `ℚ`; it is only ever printed, never compared). `maxEntries`
is kept in `ℤ` because the code compares it with `> 0`. -/
structure OcrConfig where
  taskTtlSeconds : ℤ
  maxEntries : ℤ
  callTimeoutSeconds : ℚ
deriving Repr, DecidableEq

/-- The constructor defaults: TTL 600 s, 200 entries, 30 s call timeout. -/
def defaultConfig : OcrConfig := ⟨600, 200, 30⟩

/-- The four mutable maps of the service. `cache` holds completed
`(code, raw)` pairs, `errors` holds failure descriptions, `completed_at`
the completion timestamps; `pending` keeps just the keys of the in-flight
`asyncio.Task` handles (the handle itself carries no observable data). -/
structure OcrState where
  cache : List (String × String × String)
  pending : List String
  errors : List (String × String)
  completed_at : List (String × ℤ)
deriving Repr, DecidableEq

def OcrState.empty : OcrState := ⟨[], [], [], []⟩

/-- Python dict assignment `d[k] = v`: update in place if the key exists
(keeping its position), else append. -/
def ainsert : List (String × α) → String → α → List (String × α)
  | [], k, v => [(k, v)]
  | (k', v') :: t, k, v =>
    if k' = k then (k, v) :: t else (k', v') :: ainsert t k v

/-- Python dict `d.pop(k, None)`. -/
def aerase (l : List (String × α)) (k : String) : List (String × α) :=
  l.filter (fun kv => kv.1 != k)

/-- Membership of `k` in the key set of an association list. -/
def akeys (l : List (String × α)) : List String := l.map Prod.fst

/-- Addition of a pending key (`self._pending[task_key] = task`). -/
def pinsert (l : List String) (k : String) : List String :=
  if l.contains k then l else l ++ [k]

/-- Model of `_task_key`: hex SHA-256 of the credential, a colon, then the image
hash. -/
def task_key (api_key : String) (img_hash : String) : String :=
  sha256Hex api_key ++ ":" ++ img_hash

/-- Model of `image_hash`: hex MD5 of the raw image bytes; also the external task
id. -/
def image_hash (img_data : List Nat) : String := md5Hex img_data

/-- Keys removed by the TTL phase of `_cleanup_locked`: those whose age
exceeds the TTL strictly. -/
def expiredKeys (cfg : OcrConfig) (st : OcrState) (now : ℤ) : List String :=
  (st.completed_at.filter (fun kv => decide (now - kv.2 > cfg.taskTtlSeconds))).map Prod.fst

/-- Remove a set of keys from `completed_at`, `cache` and `errors`
together (the loop bodies of `_cleanup_locked`). -/
def removeKeys (st : OcrState) (ks : List String) : OcrState :=
  { st with
    completed_at := st.completed_at.filter (fun kv => !ks.contains kv.1)
    cache := st.cache.filter (fun kv => !ks.contains kv.1)
    errors := st.errors.filter (fun kv => !ks.contains kv.1) }

/-- Phase 1 of `_cleanup_locked`: drop every finished entry whose age
strictly exceeds the TTL. -/
def ttlSweep (cfg : OcrConfig) (st : OcrState) (now : ℤ) : OcrState :=
  removeKeys st (expiredKeys cfg st now)

/-- Ordering used by `sorted(self._completed_at.items(), key=lambda kv: kv[1])`.
Python's `sorted` is a stable ascending sort; every stable sort computes
the same list, so it is modelled by a stable insertion sort. -/
def byTimestamp (a b : String × ℤ) : Prop := a.2 ≤ b.2

instance : DecidableRel byTimestamp :=
  fun a b => inferInstanceAs (Decidable (a.2 ≤ b.2))

instance : IsTotal (String × ℤ) byTimestamp :=
  ⟨fun a b => le_total a.2 b.2⟩

instance : IsTrans (String × ℤ) byTimestamp :=
  ⟨fun _ _ _ => le_trans⟩

/-- Phase 2 of `_cleanup_locked`: when more than `max_entries` finished
entries remain (and the maximum is positive), evict the oldest-completed
ones down to the maximum. -/
def capSweep (cfg : OcrConfig) (st : OcrState) : OcrState :=
  if cfg.maxEntries > 0 ∧ (st.completed_at.length : ℤ) > cfg.maxEntries then
    let sortedEntries := List.insertionSort byTimestamp st.completed_at
    let toRemove :=
      (sortedEntries.take (st.completed_at.length - cfg.maxEntries.toNat)).map Prod.fst
    removeKeys st toRemove
  else st

/-- Model of `_cleanup_locked(now)`: TTL phase then capacity phase. -/
def cleanup_locked (cfg : OcrConfig) (st : OcrState) (now : ℤ) : OcrState :=
  capSweep cfg (ttlSweep cfg st now)

/-! ## The background unit of work (`_run_task`) -/

/-- Outcome of the awaited backend call `_call_gemini` as seen by
`_run_task`'s `try`: a `(code, raw)` pair, an `asyncio.TimeoutError`, or
any other exception with its message. -/
inductive CallResult where
  | ok (code raw : String)
  | timedOut
  | failed (msg : String)
deriving Repr, DecidableEq

/-- The failure description stored on timeout:
the f-string interpolating `call_timeout_seconds` between "timeout after " and "s". -/
def timeoutMessage (cfg : OcrConfig) : String :=
  "timeout after " ++ toString cfg.callTimeoutSeconds ++ "s"

/-- The first critical section of `_run_task`: store the outcome, stamp
`completed_at`, and run the sweep, all under the lock. On success the
prior failure record is popped; on failure the cache is left alone. -/
def storeOutcome (cfg : OcrConfig) (st : OcrState) (k : String) (res : CallResult)
    (now : ℤ) : OcrState :=
  match res with
  | .ok code raw =>
    cleanup_locked cfg
      { st with
        cache := ainsert st.cache k (code, raw)
        errors := aerase st.errors k
        completed_at := ainsert st.completed_at k now } now
  | .timedOut =>
    cleanup_locked cfg
      { st with
        errors := ainsert st.errors k (timeoutMessage cfg)
        completed_at := ainsert st.completed_at k now } now
  | .failed msg =>
    cleanup_locked cfg
      { st with
        errors := ainsert st.errors k msg
        completed_at := ainsert st.completed_at k now } now

/-- The `finally` block of `_run_task`: a second, separate critical
section that pops the pending record. -/
def popPending (st : OcrState) (k : String) : OcrState :=
  { st with pending := st.pending.filter (fun x => x != k) }

/-- The whole background unit of work, composed: store the result, then
(in a separate critical section) drop the pending record. -/
def runTask (cfg : OcrConfig) (st : OcrState) (k : String) (res : CallResult)
    (now : ℤ) : OcrState :=
  popPending (storeOutcome cfg st k res now) k

/-! ## `submit`, `get_status`, `classify` -/

/-- Result of `submit`: the external task id, the state after the critical
section, and whether a new background task was spawned
(`asyncio.create_task`). -/
def submit (cfg : OcrConfig) (st : OcrState) (img_data : List Nat) (api_key : String)
    (force_retry : Bool) (now : ℤ) : String × OcrState × Bool :=
  let img_hash := image_hash img_data
  let k := task_key api_key img_hash
  let st1 := cleanup_locked cfg st now
  if (List.lookup k st1.cache).isSome then (img_hash, st1, false)
  else if st1.pending.contains k then (img_hash, st1, false)
  else if (List.lookup k st1.errors).isSome && !force_retry then (img_hash, st1, false)
  else (img_hash, { st1 with errors := aerase st1.errors k, pending := pinsert st1.pending k }, true)

/-- The four shapes of the `get_status` response dict. -/
inductive StatusAns where
  | done (code raw : String)
  | pending
  | error (msg : String)
  | notFound
deriving Repr, DecidableEq

/-- Model of `get_status(task_id, api_key)`: sweep, then dispatch with precedence
cache, pending, errors, not-found. -/
def get_status (cfg : OcrConfig) (st : OcrState) (task_id api_key : String)
    (now : ℤ) : StatusAns × OcrState :=
  let k := task_key api_key task_id
  let st1 := cleanup_locked cfg st now
  match List.lookup k st1.cache with
  | some (code, raw) => (.done code raw, st1)
  | none =>
    if st1.pending.contains k then (.pending, st1)
    else
      match List.lookup k st1.errors with
      | some e => (.error e, st1)
      | none => (.notFound, st1)

/-- What `classify` produces for its caller: a `(code, raw)` pair or a
raised `HTTPException(status, detail)`. -/
inductive ClassifyAns where
  | ok (code raw : String)
  | httpError (status : Nat) (detail : String)
deriving Repr, DecidableEq

/-- The defensive error raised when neither a result nor an error is found
after the await. -/
def inconsistentDetail : String := "Gemini task finished without result"

/-- The first critical section of `classify`: sweep, then return a cached
result, raise a cached failure, or join/start the pending task. Returns
`none` in the first component when the caller must await (third component:
whether a fresh background task was spawned). -/
def classifyFirst (cfg : OcrConfig) (st : OcrState) (img_data : List Nat)
    (api_key : String) (now : ℤ) : Option ClassifyAns × OcrState × Bool :=
  let k := task_key api_key (image_hash img_data)
  let st1 := cleanup_locked cfg st now
  match List.lookup k st1.cache with
  | some (code, raw) => (some (.ok code raw), st1, false)
  | none =>
    match List.lookup k st1.errors with
    | some e => (some (.httpError 500 e), st1, false)
    | none =>
      if st1.pending.contains k then (none, st1, false)
      else (none, { st1 with pending := pinsert st1.pending k }, true)

/-- The re-check after the await (`classify`'s second critical section):
no sweep this time; neither map containing the key raises the
internal-inconsistency error. -/
def classifySecond (st : OcrState) (k : String) : ClassifyAns :=
  match List.lookup k st.cache with
  | some (code, raw) => .ok code raw
  | none =>
    match List.lookup k st.errors with
    | some e => .httpError 500 e
    | none => .httpError 500 inconsistentDetail

/-! ## Operational model of interleaved executions

`_run_task` takes the lock twice: once to store its outcome and once (in
`finally`) to pop the pending record. To talk about the states *between*
those two critical sections we track, besides the service maps, the set of
live background workers with their progress phase. -/

/-- Progress of a background unit of work: still before its first critical
section (`running`), or between its two critical sections (`stored`). -/
inductive WorkerPhase where
  | running
  | stored
deriving Repr, DecidableEq

/-- Global state: the service maps plus the live workers. -/
structure GState where
  ocr : OcrState
  workers : List (String × WorkerPhase)
deriving Repr, DecidableEq

def GState.init : GState := ⟨OcrState.empty, []⟩

/-- Effect of `submit`'s critical section on the global state: the state
transformer, spawning a worker when a task is created. -/
def submitG (cfg : OcrConfig) (g : GState) (img_data : List Nat) (api_key : String)
    (force_retry : Bool) (now : ℤ) : GState :=
  let r := submit cfg g.ocr img_data api_key force_retry now
  { ocr := r.2.1
    workers := if r.2.2 then g.workers ++ [(task_key api_key (image_hash img_data), .running)]
               else g.workers }

/-- Effect of `classify`'s first critical section on the global state. -/
def classifyFirstG (cfg : OcrConfig) (g : GState) (img_data : List Nat)
    (api_key : String) (now : ℤ) : GState :=
  let r := classifyFirst cfg g.ocr img_data api_key now
  { ocr := r.2.1
    workers := if r.2.2 then g.workers ++ [(task_key api_key (image_hash img_data), .running)]
               else g.workers }

/-- Effect of `_run_task`'s first critical section: store the outcome; the
worker moves from `running` to `stored`. -/
def resultG (cfg : OcrConfig) (g : GState) (k : String) (res : CallResult)
    (now : ℤ) : GState :=
  { ocr := storeOutcome cfg g.ocr k res now
    workers := g.workers.map (fun w => if w.1 = k then (k, .stored) else w) }

/-- Effect of `_run_task`'s `finally` section: pop the pending record; the
worker disappears. -/
def finallyG (g : GState) (k : String) : GState :=
  { ocr := popPending g.ocr k
    workers := g.workers.filter (fun w => w.1 != k) }

/-- Effect of `get_status`'s critical section (only the sweep mutates). -/
def statusG (cfg : OcrConfig) (g : GState) (task_id api_key : String) (now : ℤ) : GState :=
  { g with ocr := (get_status cfg g.ocr task_id api_key now).2 }

/-- One atomic step of the coordinator: any critical section of any public
operation or of a live background worker, at any instant. -/
inductive CStep (cfg : OcrConfig) : GState → GState → Prop where
  | submit (g : GState) (img_data : List Nat) (api_key : String) (force_retry : Bool)
      (now : ℤ) : CStep cfg g (submitG cfg g img_data api_key force_retry now)
  | classifyFirst (g : GState) (img_data : List Nat) (api_key : String) (now : ℤ) :
      CStep cfg g (classifyFirstG cfg g img_data api_key now)
  | result (g : GState) (k : String) (res : CallResult) (now : ℤ)
      (hw : (k, WorkerPhase.running) ∈ g.workers) :
      CStep cfg g (resultG cfg g k res now)
  | finallyStep (g : GState) (k : String) (hw : (k, WorkerPhase.stored) ∈ g.workers) :
      CStep cfg g (finallyG g k)
  | status (g : GState) (task_id api_key : String) (now : ℤ) :
      CStep cfg g (statusG cfg g task_id api_key now)

/-- States reachable from the freshly constructed service. -/
inductive Reach (cfg : OcrConfig) : GState → Prop where
  | init : Reach cfg GState.init
  | step {g g' : GState} : Reach cfg g → CStep cfg g g' → Reach cfg g'

/-- Base-16 value of a little-endian digit list. -/
def digitsVal : List Nat → Nat
  | [] => 0
  | d :: t => d + 16 * digitsVal t

/-- The number of 64-digit hex strings, i.e. `16 ^ 64`, as a literal (a
literal avoids unfolding `Monoid.npow` during elaboration). -/
def digestBound : Nat :=
  115792089237316195423570985008687907853269984665640564039457584007913129639936

/-- The inductive invariant of the coordinator: the pending set and the
live workers have the same keys; a worker that has not yet stored its
outcome owns a key with no finished record; and no key is simultaneously
Completed and Failed. -/
structure CoordInv (g : GState) : Prop where
  pendWork : ∀ k, k ∈ g.ocr.pending ↔ k ∈ akeys g.workers
  runningClean : ∀ k, (k, WorkerPhase.running) ∈ g.workers →
    k ∉ akeys g.ocr.cache ∧ k ∉ akeys g.ocr.errors
  excl : ∀ k, k ∉ akeys g.ocr.cache ∨ k ∉ akeys g.ocr.errors


/-! ## Association-list toolbox -/

theorem mem_akeys_iff {α : Type} {l : List (String × α)} {k : String} :
    k ∈ akeys l ↔ ∃ v, (k, v) ∈ l := by
  simp [akeys, List.mem_map, Prod.exists]

theorem lookup_eq_none_iff {α : Type} (l : List (String × α)) (k : String) :
    List.lookup k l = none ↔ k ∉ akeys l := by
  induction l with
  | nil => simp [akeys]
  | cons p t ih =>
    obtain ⟨a, b⟩ := p
    by_cases h : k = a
    · subst h; simp [List.lookup, akeys]
    · simp [List.lookup, beq_false_of_ne h, akeys, h, ih]

theorem lookup_isSome_iff {α : Type} (l : List (String × α)) (k : String) :
    (List.lookup k l).isSome = true ↔ k ∈ akeys l := by
  rcases hl : List.lookup k l with _ | v
  · simpa [Option.isSome] using (lookup_eq_none_iff l k).mp hl
  · simp only [Option.isSome, true_iff]
    by_contra hk
    exact absurd hl (by simp [(lookup_eq_none_iff l k).mpr hk])

theorem lookup_some_mem {α : Type} {l : List (String × α)} {k : String} {v : α}
    (h : List.lookup k l = some v) : (k, v) ∈ l := by
  induction l with
  | nil => simp [List.lookup] at h
  | cons p t ih =>
    obtain ⟨a, b⟩ := p
    by_cases hk : k = a
    · subst hk; simp [List.lookup] at h; simp [h]
    · rw [List.lookup, beq_false_of_ne hk] at h
      exact List.mem_cons_of_mem _ (ih h)

theorem lookup_ainsert_self {α : Type} (l : List (String × α)) (k : String) (v : α) :
    List.lookup k (ainsert l k v) = some v := by
  induction l with
  | nil => simp [ainsert, List.lookup]
  | cons p t ih =>
    obtain ⟨a, b⟩ := p
    by_cases h : a = k
    · subst h; simp [ainsert, List.lookup]
    · rw [ainsert, if_neg h, List.lookup, beq_false_of_ne (fun hh => h hh.symm)]
      exact ih

theorem lookup_ainsert_ne {α : Type} (l : List (String × α)) {k' k : String} (v : α)
    (h : k' ≠ k) : List.lookup k' (ainsert l k v) = List.lookup k' l := by
  induction l with
  | nil => simp [ainsert, List.lookup, beq_false_of_ne h]
  | cons p t ih =>
    obtain ⟨a, b⟩ := p
    by_cases ha : a = k
    · subst ha; simp [ainsert, List.lookup, beq_false_of_ne h]
    · rw [ainsert, if_neg ha]
      by_cases hk : k' = a
      · subst hk; simp [List.lookup]
      · rw [List.lookup, List.lookup, beq_false_of_ne hk]
        exact ih

theorem mem_akeys_ainsert {α : Type} (l : List (String × α)) (k' k : String) (v : α) :
    k' ∈ akeys (ainsert l k v) ↔ k' = k ∨ k' ∈ akeys l := by
  induction l with
  | nil => simp [ainsert, akeys]
  | cons p t ih =>
    obtain ⟨a, b⟩ := p
    by_cases h : a = k
    · subst h; simp [ainsert, akeys]
    · rw [ainsert, if_neg h]
      simp only [akeys, List.map_cons, List.mem_cons] at *
      tauto

theorem mem_ainsert {α : Type} {l : List (String × α)} {p : String × α} {k : String}
    {v : α} (h : p ∈ ainsert l k v) : p = (k, v) ∨ p ∈ l := by
  induction l with
  | nil => simp [ainsert] at h; simp [h]
  | cons q t ih =>
    obtain ⟨a, b⟩ := q
    by_cases ha : a = k
    · subst ha
      rcases List.mem_cons.mp (by simpa [ainsert] using h) with h' | h'
      · exact Or.inl h'
      · exact Or.inr (List.mem_cons_of_mem _ h')
    · rw [ainsert, if_neg ha] at h
      rcases List.mem_cons.mp h with h' | h'
      · exact Or.inr (by simp [h'])
      · rcases ih h' with h'' | h''
        · exact Or.inl h''
        · exact Or.inr (List.mem_cons_of_mem _ h'')

theorem mem_aerase {α : Type} {l : List (String × α)} {p : String × α} {k : String} :
    p ∈ aerase l k ↔ p ∈ l ∧ p.1 ≠ k := by
  simp [aerase, List.mem_filter, bne_iff_ne]

theorem mem_akeys_aerase {α : Type} (l : List (String × α)) (k' k : String) :
    k' ∈ akeys (aerase l k) ↔ k' ∈ akeys l ∧ k' ≠ k := by
  constructor
  · intro h
    rcases mem_akeys_iff.mp h with ⟨v, hv⟩
    rcases mem_aerase.mp hv with ⟨hm, hne⟩
    exact ⟨mem_akeys_iff.mpr ⟨v, hm⟩, hne⟩
  · rintro ⟨h, hne⟩
    rcases mem_akeys_iff.mp h with ⟨v, hv⟩
    exact mem_akeys_iff.mpr ⟨v, mem_aerase.mpr ⟨hv, hne⟩⟩

theorem lookup_aerase_self {α : Type} (l : List (String × α)) (k : String) :
    List.lookup k (aerase l k) = none := by
  rw [lookup_eq_none_iff]
  intro h
  exact ((mem_akeys_aerase l k k).mp h).2 rfl

theorem pinsert_of_not_mem {l : List String} {k : String} (h : k ∉ l) :
    pinsert l k = l ++ [k] := by
  unfold pinsert
  simp [List.elem_iff, h]

theorem pinsert_of_mem {l : List String} {k : String} (h : k ∈ l) : pinsert l k = l := by
  unfold pinsert
  simp [List.elem_iff, h]

theorem mem_pinsert (l : List String) (k' k : String) :
    k' ∈ pinsert l k ↔ k' ∈ l ∨ k' = k := by
  by_cases hk : k ∈ l
  · rw [pinsert_of_mem hk]
    constructor
    · exact Or.inl
    · rintro (h' | h')
      · exact h'
      · subst h'; exact hk
  · rw [pinsert_of_not_mem hk]
    simp


/-! ## Sweep lemmas -/

theorem removeKeys_pending (st : OcrState) (ks : List String) :
    (removeKeys st ks).pending = st.pending := rfl

theorem ttlSweep_pending (cfg : OcrConfig) (st : OcrState) (now : ℤ) :
    (ttlSweep cfg st now).pending = st.pending := rfl

theorem capSweep_pending (cfg : OcrConfig) (st : OcrState) :
    (capSweep cfg st).pending = st.pending := by
  unfold capSweep
  split <;> rfl

theorem cleanup_pending (cfg : OcrConfig) (st : OcrState) (now : ℤ) :
    (cleanup_locked cfg st now).pending = st.pending := by
  unfold cleanup_locked
  rw [capSweep_pending, ttlSweep_pending]

theorem mem_removeKeys_cache {st : OcrState} {ks : List String} {p : String × String × String} :
    p ∈ (removeKeys st ks).cache ↔ p ∈ st.cache ∧ ¬ p.1 ∈ ks := by
  simp [removeKeys, List.mem_filter, List.elem_iff]

theorem mem_removeKeys_errors {st : OcrState} {ks : List String} {p : String × String} :
    p ∈ (removeKeys st ks).errors ↔ p ∈ st.errors ∧ ¬ p.1 ∈ ks := by
  simp [removeKeys, List.mem_filter, List.elem_iff]

theorem mem_removeKeys_completed {st : OcrState} {ks : List String} {p : String × ℤ} :
    p ∈ (removeKeys st ks).completed_at ↔ p ∈ st.completed_at ∧ ¬ p.1 ∈ ks := by
  simp [removeKeys, List.mem_filter, List.elem_iff]

theorem capSweep_cache_sub {cfg : OcrConfig} {st : OcrState} {p : String × String × String}
    (h : p ∈ (capSweep cfg st).cache) : p ∈ st.cache := by
  unfold capSweep at h
  split at h
  · exact (mem_removeKeys_cache.mp h).1
  · exact h

theorem capSweep_errors_sub {cfg : OcrConfig} {st : OcrState} {p : String × String}
    (h : p ∈ (capSweep cfg st).errors) : p ∈ st.errors := by
  unfold capSweep at h
  split at h
  · exact (mem_removeKeys_errors.mp h).1
  · exact h

theorem capSweep_completed_sub {cfg : OcrConfig} {st : OcrState} {p : String × ℤ}
    (h : p ∈ (capSweep cfg st).completed_at) : p ∈ st.completed_at := by
  unfold capSweep at h
  split at h
  · exact (mem_removeKeys_completed.mp h).1
  · exact h

theorem cleanup_cache_sub {cfg : OcrConfig} {st : OcrState} {now : ℤ}
    {p : String × String × String} (h : p ∈ (cleanup_locked cfg st now).cache) :
    p ∈ st.cache := by
  have := capSweep_cache_sub h
  exact (mem_removeKeys_cache.mp this).1

theorem cleanup_errors_sub {cfg : OcrConfig} {st : OcrState} {now : ℤ}
    {p : String × String} (h : p ∈ (cleanup_locked cfg st now).errors) :
    p ∈ st.errors := by
  have := capSweep_errors_sub h
  exact (mem_removeKeys_errors.mp this).1

theorem cleanup_completed_sub {cfg : OcrConfig} {st : OcrState} {now : ℤ}
    {p : String × ℤ} (h : p ∈ (cleanup_locked cfg st now).completed_at) :
    p ∈ st.completed_at := by
  have := capSweep_completed_sub h
  exact (mem_removeKeys_completed.mp this).1

theorem cleanup_akeys_cache_sub {cfg : OcrConfig} {st : OcrState} {now : ℤ} {k : String}
    (h : k ∈ akeys (cleanup_locked cfg st now).cache) : k ∈ akeys st.cache := by
  rcases mem_akeys_iff.mp h with ⟨v, hv⟩
  exact mem_akeys_iff.mpr ⟨v, cleanup_cache_sub hv⟩

theorem cleanup_akeys_errors_sub {cfg : OcrConfig} {st : OcrState} {now : ℤ} {k : String}
    (h : k ∈ akeys (cleanup_locked cfg st now).errors) : k ∈ akeys st.errors := by
  rcases mem_akeys_iff.mp h with ⟨v, hv⟩
  exact mem_akeys_iff.mpr ⟨v, cleanup_errors_sub hv⟩

/-! ## Characterisation of the extraction scan -/

theorem windowGood_succ (c : Char) (cs : List Char) (j : Nat) :
    windowGood (c :: cs) (j + 1) ↔ windowGood cs j := by
  simp [windowGood, List.drop_succ_cons]

theorem windowGood_zero_iff (c : Char) (cs : List Char) :
    (decide (((c :: cs).take 5).length = 5) && ((c :: cs).take 5).all isAlnumAscii) = true ↔
      windowGood (c :: cs) 0 := by
  simp [windowGood]

theorem find5Run_cons_pos {c : Char} {cs : List Char} (h : windowGood (c :: cs) 0) :
    find5Run (c :: cs) = some ((c :: cs).take 5) := by
  rw [find5Run, if_pos ((windowGood_zero_iff c cs).mpr h)]

theorem find5Run_cons_neg {c : Char} {cs : List Char} (h : ¬ windowGood (c :: cs) 0) :
    find5Run (c :: cs) = find5Run cs := by
  rw [find5Run, if_neg]
  intro hc
  exact h ((windowGood_zero_iff c cs).mp hc)

theorem find5Run_of_min :
    ∀ (l : List Char) (i : Nat), windowGood l i → (∀ j, j < i → ¬ windowGood l j) →
      find5Run l = some ((l.drop i).take 5)
  | [], i, h, _ => by simp [windowGood] at h
  | c :: cs, 0, h, _ => by rw [find5Run_cons_pos h]; simp
  | c :: cs, i + 1, h, hmin => by
    rw [find5Run_cons_neg (hmin 0 (Nat.succ_pos i))]
    rw [find5Run_of_min cs i ((windowGood_succ c cs i).mp h)
      (fun j hj hw => hmin (j + 1) (Nat.succ_lt_succ hj) ((windowGood_succ c cs j).mpr hw))]
    simp [List.drop_succ_cons]

theorem find5Run_none_iff :
    ∀ l : List Char, find5Run l = none ↔ ∀ i, ¬ windowGood l i := by
  intro l
  induction l with
  | nil =>
    simp only [find5Run, true_iff]
    intro i
    simp [windowGood]
  | cons c cs ih =>
    by_cases h0 : windowGood (c :: cs) 0
    · rw [find5Run_cons_pos h0]
      constructor
      · intro h; exact absurd h (by simp)
      · intro h; exact absurd h0 (h 0)
    · rw [find5Run_cons_neg h0, ih]
      constructor
      · intro h i
        cases i with
        | zero => exact h0
        | succ j => exact fun hw => h j ((windowGood_succ c cs j).mp hw)
      · intro h j
        exact fun hw => h (j + 1) ((windowGood_succ c cs j).mpr hw)

/-! ## Claims about code extraction (C1, C4) -/

/-- C1, counterexample: the spec's worked example is wrong on the code.
The word "noise" itself is a run of five alphanumeric characters and the
regex scan is leftmost-first, so `extract_captcha` applied to
"noise aB3dE more noise" returns "noise", not "aB3dE". -/
theorem C1_counterexample :
    extract_captcha "noise aB3dE more noise" = "noise" ∧ "noise" ≠ "aB3dE" := by
  decide

/-- C1 (amended): the code-extraction function applied to
"noise aB3dE more noise" returns "noise" (the leftmost window of five
consecutive alphanumerics, which the literal word "noise" already is);
applied to "no code here" (no such window) it returns the trimmed input
"no code here" unchanged. -/
theorem C1_extraction_examples :
    extract_captcha "noise aB3dE more noise" = "noise" ∧
      extract_captcha "no code here" = "no code here" := by
  decide

/-- C4, counterexample: on "abcdef" there is no maximal alphanumeric run
of length exactly 5 (the single maximal run has length 6), so the claim's
reading returns the trimmed input "abcdef"; the code returns the first
five characters "abcde". -/
theorem C4_counterexample :
    extractCodeClaim "abcdef" = "abcdef" ∧ extract_captcha "abcdef" = "abcde" ∧
      extract_captcha "abcdef" ≠ extractCodeClaim "abcdef" := by
  decide

/-- C4 (amended): for every input string, the code-extraction function
returns the five characters starting at the leftmost position where five
consecutive alphanumeric characters (case-sensitive letters and digits)
begin — not necessarily a *maximal* run of *exactly* five — and when no
such window exists it returns the input with surrounding whitespace
trimmed and otherwise unchanged. -/
theorem C4_leftmost_window (s : String) :
    (∀ i, windowGood s.data i → (∀ j, j < i → ¬ windowGood s.data j) →
      extract_captcha s = String.mk ((s.data.drop i).take 5)) ∧
    ((∀ i, ¬ windowGood s.data i) → extract_captcha s = pyStrip s) := by
  constructor
  · intro i hi hmin
    unfold extract_captcha
    rw [find5Run_of_min s.data i hi hmin]
  · intro h
    unfold extract_captcha
    rw [(find5Run_none_iff s.data).mpr h]

/-- Witness for C4: on "xy aB3dE z" the leftmost alphanumeric window of
five starts at index 3 and the function returns it. -/
theorem C4_witness :
    windowGood "xy aB3dE z".data 3 ∧ (∀ j, j < 3 → ¬ windowGood "xy aB3dE z".data j) ∧
      extract_captcha "xy aB3dE z" = "aB3dE" :=
  ⟨by decide, by decide, (C4_leftmost_window "xy aB3dE z").1 3 (by decide) (by decide)⟩

/-! ## Claim C3: the submit dispatch table -/

theorem contains_iff (l : List String) (k : String) : l.contains k = true ↔ k ∈ l :=
  List.elem_iff

theorem bool_false_of_not {b : Bool} {P : Prop} (h : b = true ↔ P) (hp : ¬ P) :
    b = false := by
  cases b
  · rfl
  · exact absurd (h.mp rfl) hp

/-- C3: `submit` follows the dispatch table of §4.3, checks evaluated in
the order Completed, Pending, Failed: any of the first three states (with
`force_retry` unset for Failed) returns the task id over the swept state
with no new background task; Failed-with-retry and Absent clear the
failure record and start exactly one new background task (the pending set
is extended by exactly the key). All states are those after the opening
eviction sweep, as the code consults them. -/
theorem C3_submit_dispatch (cfg : OcrConfig) (st : OcrState) (img_data : List Nat)
    (api_key : String) (force_retry : Bool) (now : ℤ) :
    (task_key api_key (image_hash img_data) ∈ akeys (cleanup_locked cfg st now).cache →
      submit cfg st img_data api_key force_retry now =
        (image_hash img_data, cleanup_locked cfg st now, false)) ∧
    (task_key api_key (image_hash img_data) ∉ akeys (cleanup_locked cfg st now).cache →
      task_key api_key (image_hash img_data) ∈ (cleanup_locked cfg st now).pending →
      submit cfg st img_data api_key force_retry now =
        (image_hash img_data, cleanup_locked cfg st now, false)) ∧
    (task_key api_key (image_hash img_data) ∉ akeys (cleanup_locked cfg st now).cache →
      task_key api_key (image_hash img_data) ∉ (cleanup_locked cfg st now).pending →
      task_key api_key (image_hash img_data) ∈ akeys (cleanup_locked cfg st now).errors →
      force_retry = false →
      submit cfg st img_data api_key force_retry now =
        (image_hash img_data, cleanup_locked cfg st now, false)) ∧
    (task_key api_key (image_hash img_data) ∉ akeys (cleanup_locked cfg st now).cache →
      task_key api_key (image_hash img_data) ∉ (cleanup_locked cfg st now).pending →
      (task_key api_key (image_hash img_data) ∉ akeys (cleanup_locked cfg st now).errors ∨
        force_retry = true) →
      submit cfg st img_data api_key force_retry now =
        (image_hash img_data,
         { cleanup_locked cfg st now with
           errors := aerase (cleanup_locked cfg st now).errors
             (task_key api_key (image_hash img_data))
           pending := (cleanup_locked cfg st now).pending ++
             [task_key api_key (image_hash img_data)] },
         true)) := by
  refine ⟨?_, ?_, ?_, ?_⟩
  · intro hc
    simp only [submit]
    rw [if_pos ((lookup_isSome_iff _ _).mpr hc)]
  · intro hc hp
    simp only [submit]
    rw [if_neg (by rw [bool_false_of_not (lookup_isSome_iff _ _) hc]; simp),
        if_pos ((contains_iff _ _).mpr hp)]
  · intro hc hp he hf
    simp only [submit]
    rw [if_neg (by rw [bool_false_of_not (lookup_isSome_iff _ _) hc]; simp),
        if_neg (by rw [bool_false_of_not (contains_iff _ _) hp]; simp),
        if_pos (by rw [(lookup_isSome_iff _ _).mpr he, hf]; rfl)]
  · intro hc hp hor
    have herr : ((List.lookup (task_key api_key (image_hash img_data))
        (cleanup_locked cfg st now).errors).isSome && !force_retry) = false := by
      rcases hor with he | hf
      · rw [bool_false_of_not (lookup_isSome_iff _ _) he]; rfl
      · rw [hf]; simp
    simp only [submit]
    rw [if_neg (by rw [bool_false_of_not (lookup_isSome_iff _ _) hc]; simp),
        if_neg (by rw [bool_false_of_not (contains_iff _ _) hp]; simp),
        if_neg (by rw [herr]; simp),
        pinsert_of_not_mem hp]

/-- Witness for C3: on the empty coordinator (Absent state) `submit`
returns the image digest and starts exactly one background task. -/
theorem C3_witness :
    task_key "c" (image_hash [1]) ∉ akeys (cleanup_locked defaultConfig OcrState.empty 0).cache ∧
    task_key "c" (image_hash [1]) ∉ (cleanup_locked defaultConfig OcrState.empty 0).pending ∧
    task_key "c" (image_hash [1]) ∉ akeys (cleanup_locked defaultConfig OcrState.empty 0).errors ∧
    submit defaultConfig OcrState.empty [1] "c" false 0 =
      (image_hash [1],
       { cleanup_locked defaultConfig OcrState.empty 0 with
         errors := aerase (cleanup_locked defaultConfig OcrState.empty 0).errors
           (task_key "c" (image_hash [1]))
         pending := (cleanup_locked defaultConfig OcrState.empty 0).pending ++
           [task_key "c" (image_hash [1])] },
       true) := by
  have hclean : cleanup_locked defaultConfig OcrState.empty 0 = OcrState.empty := rfl
  have hc : task_key "c" (image_hash [1]) ∉
      akeys (cleanup_locked defaultConfig OcrState.empty 0).cache := by
    rw [hclean]; simp [OcrState.empty, akeys]
  have hp : task_key "c" (image_hash [1]) ∉
      (cleanup_locked defaultConfig OcrState.empty 0).pending := by
    rw [hclean]; simp [OcrState.empty]
  have he : task_key "c" (image_hash [1]) ∉
      akeys (cleanup_locked defaultConfig OcrState.empty 0).errors := by
    rw [hclean]; simp [OcrState.empty, akeys]
  exact ⟨hc, hp, he,
    (C3_submit_dispatch defaultConfig OcrState.empty [1] "c" false 0).2.2.2 hc hp (Or.inl he)⟩

/-! ## Claim C10: status query precedence -/

/-- C10: on every state (including those where one key is present in more
than one map) `get_status` answers by the fixed precedence done, pending,
error, not-found on the swept state, always returning exactly one of the
four shapes; in particular a key present in both the completed map and
the pending map is reported done with the completed result. -/
theorem C10_status_precedence (cfg : OcrConfig) (st : OcrState) (task_id api_key : String)
    (now : ℤ) :
    (∀ code raw, List.lookup (task_key api_key task_id) (cleanup_locked cfg st now).cache =
        some (code, raw) →
      (get_status cfg st task_id api_key now).1 = .done code raw) ∧
    (List.lookup (task_key api_key task_id) (cleanup_locked cfg st now).cache = none →
      task_key api_key task_id ∈ (cleanup_locked cfg st now).pending →
      (get_status cfg st task_id api_key now).1 = .pending) ∧
    (List.lookup (task_key api_key task_id) (cleanup_locked cfg st now).cache = none →
      task_key api_key task_id ∉ (cleanup_locked cfg st now).pending →
      ∀ e, List.lookup (task_key api_key task_id) (cleanup_locked cfg st now).errors = some e →
      (get_status cfg st task_id api_key now).1 = .error e) ∧
    (List.lookup (task_key api_key task_id) (cleanup_locked cfg st now).cache = none →
      task_key api_key task_id ∉ (cleanup_locked cfg st now).pending →
      List.lookup (task_key api_key task_id) (cleanup_locked cfg st now).errors = none →
      (get_status cfg st task_id api_key now).1 = .notFound) ∧
    (∀ code raw, List.lookup (task_key api_key task_id) (cleanup_locked cfg st now).cache =
        some (code, raw) →
      task_key api_key task_id ∈ (cleanup_locked cfg st now).pending →
      (get_status cfg st task_id api_key now).1 = .done code raw) ∧
    ((∃ code raw, (get_status cfg st task_id api_key now).1 = .done code raw) ∨
      (get_status cfg st task_id api_key now).1 = .pending ∨
      (∃ e, (get_status cfg st task_id api_key now).1 = .error e) ∨
      (get_status cfg st task_id api_key now).1 = .notFound) := by
  refine ⟨?_, ?_, ?_, ?_, ?_, ?_⟩
  · intro code raw hc
    simp only [get_status, hc]
  · intro hc hp
    simp only [get_status, hc]
    rw [if_pos ((contains_iff _ _).mpr hp)]
  · intro hc hp e he
    simp only [get_status, hc, he]
    rw [if_neg (by rw [bool_false_of_not (contains_iff _ _) hp]; simp)]
  · intro hc hp he
    simp only [get_status, hc, he]
    rw [if_neg (by rw [bool_false_of_not (contains_iff _ _) hp]; simp)]
  · intro code raw hc _
    simp only [get_status, hc]
  · rcases hc : List.lookup (task_key api_key task_id) (cleanup_locked cfg st now).cache
      with _ | ⟨code, raw⟩
    · by_cases hp : task_key api_key task_id ∈ (cleanup_locked cfg st now).pending
      · right; left
        simp only [get_status, hc]
        rw [if_pos ((contains_iff _ _).mpr hp)]
      · rcases he : List.lookup (task_key api_key task_id) (cleanup_locked cfg st now).errors
          with _ | e
        · right; right; right
          simp only [get_status, hc, he]
          rw [if_neg (by rw [bool_false_of_not (contains_iff _ _) hp]; simp)]
        · right; right; left
          refine ⟨e, ?_⟩
          simp only [get_status, hc, he]
          rw [if_neg (by rw [bool_false_of_not (contains_iff _ _) hp]; simp)]
    · left
      exact ⟨code, raw, by simp only [get_status, hc]⟩

/-- Witness for C10: a state holding the same key in both the completed
map and the pending set is reported done with the cached result. -/
theorem C10_witness :
    List.lookup (task_key "a" "t")
        (cleanup_locked defaultConfig
          ⟨[(task_key "a" "t", ("aB3dE", "raw"))], [task_key "a" "t"], [],
           [(task_key "a" "t", 0)]⟩ 0).cache = some ("aB3dE", "raw") ∧
    task_key "a" "t" ∈ (cleanup_locked defaultConfig
        ⟨[(task_key "a" "t", ("aB3dE", "raw"))], [task_key "a" "t"], [],
         [(task_key "a" "t", 0)]⟩ 0).pending ∧
    (get_status defaultConfig
        ⟨[(task_key "a" "t", ("aB3dE", "raw"))], [task_key "a" "t"], [],
         [(task_key "a" "t", 0)]⟩ "t" "a" 0).1 = .done "aB3dE" "raw" := by
  have hclean : cleanup_locked defaultConfig
      ⟨[(task_key "a" "t", ("aB3dE", "raw"))], [task_key "a" "t"], [],
       [(task_key "a" "t", 0)]⟩ 0 =
      ⟨[(task_key "a" "t", ("aB3dE", "raw"))], [task_key "a" "t"], [],
       [(task_key "a" "t", 0)]⟩ := by decide
  have hc : List.lookup (task_key "a" "t")
      (cleanup_locked defaultConfig
        ⟨[(task_key "a" "t", ("aB3dE", "raw"))], [task_key "a" "t"], [],
         [(task_key "a" "t", 0)]⟩ 0).cache = some ("aB3dE", "raw") := by
    rw [hclean]; simp [List.lookup]
  have hp : task_key "a" "t" ∈ (cleanup_locked defaultConfig
      ⟨[(task_key "a" "t", ("aB3dE", "raw"))], [task_key "a" "t"], [],
       [(task_key "a" "t", 0)]⟩ 0).pending := by
    rw [hclean]; simp
  exact ⟨hc, hp,
    (C10_status_precedence defaultConfig
      ⟨[(task_key "a" "t", ("aB3dE", "raw"))], [task_key "a" "t"], [],
       [(task_key "a" "t", 0)]⟩ "t" "a" 0).2.2.2.2.1 "aB3dE" "raw" hc hp⟩

/-! ## Claim C8: classify -/

/-- C8: `classify` returns the cached pair immediately when the key is
Completed, raises HTTP 500 carrying the stored description when it is
Failed, otherwise joins (key already pending) or starts (key absent,
pending set extended by exactly the key) the single pending unit of work
and awaits it; at the re-check after the await it returns/raises from the
then-current maps and raises the internal-inconsistency error when
neither a Completed nor a Failed record is found — and an
inconsistency-shaped answer can only arise with no Completed record and
either no Failed record or a Failed record whose stored text is itself
the sentinel. -/
theorem C8_classify_dispatch (cfg : OcrConfig) (st : OcrState) (img_data : List Nat)
    (api_key : String) (now : ℤ) :
    (∀ code raw,
      List.lookup (task_key api_key (image_hash img_data))
          (cleanup_locked cfg st now).cache = some (code, raw) →
      classifyFirst cfg st img_data api_key now =
        (some (.ok code raw), cleanup_locked cfg st now, false)) ∧
    (List.lookup (task_key api_key (image_hash img_data))
        (cleanup_locked cfg st now).cache = none →
      ∀ e, List.lookup (task_key api_key (image_hash img_data))
          (cleanup_locked cfg st now).errors = some e →
      classifyFirst cfg st img_data api_key now =
        (some (.httpError 500 e), cleanup_locked cfg st now, false)) ∧
    (List.lookup (task_key api_key (image_hash img_data))
        (cleanup_locked cfg st now).cache = none →
      List.lookup (task_key api_key (image_hash img_data))
        (cleanup_locked cfg st now).errors = none →
      task_key api_key (image_hash img_data) ∈ (cleanup_locked cfg st now).pending →
      classifyFirst cfg st img_data api_key now =
        (none, cleanup_locked cfg st now, false)) ∧
    (List.lookup (task_key api_key (image_hash img_data))
        (cleanup_locked cfg st now).cache = none →
      List.lookup (task_key api_key (image_hash img_data))
        (cleanup_locked cfg st now).errors = none →
      task_key api_key (image_hash img_data) ∉ (cleanup_locked cfg st now).pending →
      classifyFirst cfg st img_data api_key now =
        (none,
         { cleanup_locked cfg st now with
           pending := (cleanup_locked cfg st now).pending ++
             [task_key api_key (image_hash img_data)] },
         true)) ∧
    (∀ (st' : OcrState) (code raw : String),
      List.lookup (task_key api_key (image_hash img_data)) st'.cache = some (code, raw) →
      classifySecond st' (task_key api_key (image_hash img_data)) = .ok code raw) ∧
    (∀ (st' : OcrState) (e : String),
      List.lookup (task_key api_key (image_hash img_data)) st'.cache = none →
      List.lookup (task_key api_key (image_hash img_data)) st'.errors = some e →
      classifySecond st' (task_key api_key (image_hash img_data)) = .httpError 500 e) ∧
    (∀ st' : OcrState,
      List.lookup (task_key api_key (image_hash img_data)) st'.cache = none →
      List.lookup (task_key api_key (image_hash img_data)) st'.errors = none →
      classifySecond st' (task_key api_key (image_hash img_data)) =
        .httpError 500 inconsistentDetail) ∧
    (∀ st' : OcrState,
      classifySecond st' (task_key api_key (image_hash img_data)) =
        .httpError 500 inconsistentDetail →
      List.lookup (task_key api_key (image_hash img_data)) st'.cache = none ∧
        (List.lookup (task_key api_key (image_hash img_data)) st'.errors = none ∨
          List.lookup (task_key api_key (image_hash img_data)) st'.errors =
            some inconsistentDetail)) := by
  refine ⟨?_, ?_, ?_, ?_, ?_, ?_, ?_, ?_⟩
  · intro code raw hc
    simp only [classifyFirst, hc]
  · intro hc e he
    simp only [classifyFirst, hc, he]
  · intro hc he hp
    simp only [classifyFirst, hc, he]
    rw [if_pos ((contains_iff _ _).mpr hp)]
  · intro hc he hp
    simp only [classifyFirst, hc, he]
    rw [if_neg (by rw [bool_false_of_not (contains_iff _ _) hp]; simp),
        pinsert_of_not_mem hp]
  · intro st' code raw hc
    simp only [classifySecond, hc]
  · intro st' e hc he
    simp only [classifySecond, hc, he]
  · intro st' hc he
    simp only [classifySecond, hc, he]
  · intro st' h
    rcases hc : List.lookup (task_key api_key (image_hash img_data)) st'.cache
        with _ | ⟨code, raw⟩
    · refine ⟨rfl, ?_⟩
      rcases he : List.lookup (task_key api_key (image_hash img_data)) st'.errors with _ | e
      · exact Or.inl rfl
      · simp [classifySecond, hc, he] at h
        subst h
        exact Or.inr rfl
    · simp [classifySecond, hc] at h

/-- Witness for C8: on the empty coordinator the first critical section
starts the single unit of work, and a re-check on a state with neither
record raises the inconsistency error. -/
theorem C8_witness :
    List.lookup (task_key "a" (image_hash [2]))
        (cleanup_locked defaultConfig OcrState.empty 0).cache = none ∧
    List.lookup (task_key "a" (image_hash [2]))
        (cleanup_locked defaultConfig OcrState.empty 0).errors = none ∧
    task_key "a" (image_hash [2]) ∉ (cleanup_locked defaultConfig OcrState.empty 0).pending ∧
    classifyFirst defaultConfig OcrState.empty [2] "a" 0 =
      (none,
       { cleanup_locked defaultConfig OcrState.empty 0 with
         pending := (cleanup_locked defaultConfig OcrState.empty 0).pending ++
           [task_key "a" (image_hash [2])] },
       true) ∧
    classifySecond OcrState.empty (task_key "a" (image_hash [2])) =
      .httpError 500 inconsistentDetail := by
  have hclean : cleanup_locked defaultConfig OcrState.empty 0 = OcrState.empty := rfl
  have hc : List.lookup (task_key "a" (image_hash [2]))
      (cleanup_locked defaultConfig OcrState.empty 0).cache = none := by
    rw [hclean]; rfl
  have he : List.lookup (task_key "a" (image_hash [2]))
      (cleanup_locked defaultConfig OcrState.empty 0).errors = none := by
    rw [hclean]; rfl
  have hp : task_key "a" (image_hash [2]) ∉
      (cleanup_locked defaultConfig OcrState.empty 0).pending := by
    rw [hclean]; simp [OcrState.empty]
  refine ⟨hc, he, hp,
    (C8_classify_dispatch defaultConfig OcrState.empty [2] "a" 0).2.2.2.1 hc he hp,
    (C8_classify_dispatch defaultConfig OcrState.empty [2] "a" 0).2.2.2.2.2.2.1
      OcrState.empty rfl rfl⟩

/-! ## Claims C5 and C6: the eviction sweep -/

theorem nodup_keys_eq {α : Type} {l : List (String × α)} (hnd : (akeys l).Nodup)
    {k : String} {a b : α} (ha : (k, a) ∈ l) (hb : (k, b) ∈ l) : a = b := by
  induction l with
  | nil => simp at ha
  | cons p t ih =>
    obtain ⟨x, y⟩ := p
    simp only [akeys, List.map_cons, List.nodup_cons] at hnd
    rcases List.mem_cons.mp ha with h1 | h1 <;> rcases List.mem_cons.mp hb with h2 | h2
    · rw [Prod.mk.injEq] at h1 h2
      rw [h1.2, h2.2]
    · exfalso
      rw [Prod.mk.injEq] at h1
      exact hnd.1 (h1.1 ▸ List.mem_map_of_mem Prod.fst h2)
    · exfalso
      rw [Prod.mk.injEq] at h2
      exact hnd.1 (h2.1 ▸ List.mem_map_of_mem Prod.fst h1)
    · exact ih hnd.2 h1 h2

theorem akeys_filter_nodup {α : Type} {l : List (String × α)} (p : String × α → Bool)
    (hnd : (akeys l).Nodup) : (akeys (l.filter p)).Nodup :=
  List.Nodup.sublist (List.Sublist.map Prod.fst (List.filter_sublist l)) hnd

/-- Core analysis of the capacity phase: over the positive maximum with
the finished-entry count strictly above it, the sweep keeps exactly
`maxEntries` entries and every dropped entry is no newer than any kept
one. -/
theorem capSweep_spec (cfg : OcrConfig) (st : OcrState)
    (hnd : (akeys st.completed_at).Nodup)
    (hmax : 0 < cfg.maxEntries)
    (hover : (st.completed_at.length : ℤ) > cfg.maxEntries) :
    (capSweep cfg st).completed_at.length = cfg.maxEntries.toNat ∧
    (∀ p ∈ (capSweep cfg st).completed_at, ∀ q ∈ st.completed_at,
      q.1 ∉ akeys (capSweep cfg st).completed_at → q.2 ≤ p.2) := by
  have hbranch : capSweep cfg st =
      removeKeys st
        (((List.insertionSort byTimestamp st.completed_at).take
          (st.completed_at.length - cfg.maxEntries.toNat)).map Prod.fst) := by
    unfold capSweep
    rw [if_pos ⟨hmax, hover⟩]
  have hm : cfg.maxEntries.toNat ≤ st.completed_at.length := by
    omega
  have hperm : (List.insertionSort byTimestamp st.completed_at).Perm st.completed_at :=
    List.perm_insertionSort byTimestamp st.completed_at
  have hndS : (akeys (List.insertionSort byTimestamp st.completed_at)).Nodup :=
    (List.Perm.nodup_iff (hperm.map Prod.fst)).mpr hnd
  have hsorted : List.Pairwise byTimestamp (List.insertionSort byTimestamp st.completed_at) :=
    List.sorted_insertionSort byTimestamp st.completed_at
  set S := List.insertionSort byTimestamp st.completed_at with hSdef
  set r := st.completed_at.length - cfg.maxEntries.toNat with hrdef
  set R := (S.take r).map Prod.fst with hRdef
  have htd : S.take r ++ S.drop r = S := List.take_append_drop r S
  have htake_nil : (S.take r).filter (fun kv => !R.contains kv.1) = [] := by
    rw [List.filter_eq_nil_iff]
    intro a ha
    rw [(contains_iff R a.1).mpr (List.mem_map_of_mem Prod.fst ha)]
    simp
  have hdrop_self : (S.drop r).filter (fun kv => !R.contains kv.1) = S.drop r := by
    rw [List.filter_eq_self]
    intro a ha
    have hnotR : a.1 ∉ R := by
      intro haR
      have hndapp : (akeys (S.take r) ++ akeys (S.drop r)).Nodup := by
        have heq : akeys (S.take r) ++ akeys (S.drop r) = akeys S := by
          simp only [akeys]
          rw [← List.map_append, htd]
        rw [heq]; exact hndS
      have hdisj := (List.nodup_append.mp hndapp).2.2
      exact hdisj haR (List.mem_map_of_mem Prod.fst ha)
    rw [bool_false_of_not (contains_iff R a.1) hnotR]
    simp
  have hres : (capSweep cfg st).completed_at.Perm (S.drop r) := by
    rw [hbranch]
    show (st.completed_at.filter (fun kv => !R.contains kv.1)).Perm (S.drop r)
    calc (st.completed_at.filter (fun kv => !R.contains kv.1)).Perm
          (S.filter (fun kv => !R.contains kv.1)) :=
        List.Perm.filter _ hperm.symm
      _ = (S.take r ++ S.drop r).filter (fun kv => !R.contains kv.1) := by rw [htd]
      _ = S.drop r := by rw [List.filter_append, htake_nil, hdrop_self, List.nil_append]
  constructor
  · rw [hres.length_eq, List.length_drop, hperm.length_eq]
    omega
  · intro p hp q hq hqk
    have hpS : p ∈ S.drop r := hres.mem_iff.mp hp
    have hqS : q ∈ S := hperm.mem_iff.mpr hq
    have hqsplit : q ∈ S.take r ∨ q ∈ S.drop r := by
      rw [← htd] at hqS
      exact List.mem_append.mp hqS
    have hqtake : q ∈ S.take r := by
      rcases hqsplit with h | h
      · exact h
      · exact absurd (mem_akeys_iff.mpr ⟨q.2, hres.mem_iff.mpr (by simpa using h)⟩) hqk
    have hsorted' : List.Pairwise byTimestamp (S.take r ++ S.drop r) := by
      rw [htd]; exact hsorted
    exact (List.pairwise_append.mp hsorted').2.2 q hqtake p hpS

/-- C5, counterexample: with a configured maximum of 0 the capacity guard
`max_entries > 0` disables eviction entirely, so one finished entry
exceeds the maximum yet the sweep removes nothing (the claim demands the
count be brought to the maximum). -/
theorem C5_counterexample :
    (((ttlSweep ⟨600, 0, 30⟩ ⟨[], [], [], [("k", 0)]⟩ 0).completed_at.length : ℤ) >
      (OcrConfig.mk 600 0 30).maxEntries) ∧
    (cleanup_locked ⟨600, 0, 30⟩ ⟨[], [], [], [("k", 0)]⟩ 0).completed_at.length = 1 := by
  constructor
  · decide
  · decide

/-- C5 (amended): for every *positive* configured maximum and every state
in which, after TTL removal, the number of finished entries exceeds the
maximum, the eviction sweep removes entries with the oldest completion
timestamps until exactly the maximum count remains, and every removed
entry is no newer than any surviving entry (a maximum `≤ 0` disables
capacity eviction — see the counterexample). -/
theorem C5_capacity_eviction (cfg : OcrConfig) (st : OcrState) (now : ℤ)
    (hnd : (akeys st.completed_at).Nodup)
    (hmax : 0 < cfg.maxEntries)
    (hover : ((ttlSweep cfg st now).completed_at.length : ℤ) > cfg.maxEntries) :
    (cleanup_locked cfg st now).completed_at.length = cfg.maxEntries.toNat ∧
    (∀ p ∈ (cleanup_locked cfg st now).completed_at,
      ∀ q ∈ (ttlSweep cfg st now).completed_at,
        q.1 ∉ akeys (cleanup_locked cfg st now).completed_at → q.2 ≤ p.2) := by
  have hnd1 : (akeys (ttlSweep cfg st now).completed_at).Nodup := by
    have heq : (ttlSweep cfg st now).completed_at =
        st.completed_at.filter (fun kv => !(expiredKeys cfg st now).contains kv.1) := rfl
    rw [heq]
    exact akeys_filter_nodup _ hnd
  exact capSweep_spec cfg (ttlSweep cfg st now) hnd1 hmax hover

/-- Witness for C5: two fresh finished entries against a maximum of 1
leave exactly one entry, the most recently completed. -/
theorem C5_witness :
    (akeys (OcrState.mk [] [] [] [("a", 0), ("b", 1)]).completed_at).Nodup ∧
    (0 : ℤ) < (OcrConfig.mk 600 1 30).maxEntries ∧
    (((ttlSweep ⟨600, 1, 30⟩ ⟨[], [], [], [("a", 0), ("b", 1)]⟩ 2).completed_at.length : ℤ) >
      (OcrConfig.mk 600 1 30).maxEntries) ∧
    (cleanup_locked ⟨600, 1, 30⟩ ⟨[], [], [], [("a", 0), ("b", 1)]⟩ 2).completed_at.length =
      (OcrConfig.mk 600 1 30).maxEntries.toNat :=
  ⟨by decide, by decide, by decide,
    (C5_capacity_eviction ⟨600, 1, 30⟩ ⟨[], [], [], [("a", 0), ("b", 1)]⟩ 2
      (by decide) (by decide) (by decide)).1⟩

/-- C6, counterexample: a finished entry younger than the TTL can still
be removed by the *capacity* phase of the same sweep: with TTL 600 and
maximum 1, the age-2 entry "a" is evicted. So "removes exactly when age
exceeds the TTL / an entry with age below the TTL survives" fails as
stated. -/
theorem C6_counterexample :
    ((2 : ℤ) - 0 ≤ (OcrConfig.mk 600 1 30).taskTtlSeconds) ∧
    ("a", (0 : ℤ)) ∈ (OcrState.mk [] [] [] [("a", 0), ("b", 1)]).completed_at ∧
    (cleanup_locked ⟨600, 1, 30⟩ ⟨[], [], [], [("a", 0), ("b", 1)]⟩ 2).completed_at =
      [("b", 1)] := by
  refine ⟨by decide, by decide, by decide⟩

/-- C6 (amended): a finished entry is removed by the TTL phase of the
sweep exactly when its age strictly exceeds the TTL, in which case the
key leaves the completed map, the failed map and the eviction index
together and is afterwards reported not-found; an entry with age at most
the TTL survives the whole sweep *provided* the post-TTL finished count
does not exceed a positive configured maximum (otherwise the capacity
phase may evict it — see the counterexample); and the sweep always
removes one set of keys from the three maps together. -/
theorem C6_ttl_eviction (cfg : OcrConfig) (st : OcrState) (now : ℤ)
    (task_id api_key : String) (ts : ℤ)
    (hnd : (akeys st.completed_at).Nodup)
    (hmem : (task_key api_key task_id, ts) ∈ st.completed_at) :
    (now - ts > cfg.taskTtlSeconds →
      task_key api_key task_id ∉ akeys (cleanup_locked cfg st now).completed_at ∧
      task_key api_key task_id ∉ akeys (cleanup_locked cfg st now).cache ∧
      task_key api_key task_id ∉ akeys (cleanup_locked cfg st now).errors ∧
      (task_key api_key task_id ∉ st.pending →
        (get_status cfg st task_id api_key now).1 = .notFound)) ∧
    (¬ now - ts > cfg.taskTtlSeconds →
      (task_key api_key task_id, ts) ∈ (ttlSweep cfg st now).completed_at ∧
      ((((ttlSweep cfg st now).completed_at.length : ℤ) ≤ cfg.maxEntries ∨
          cfg.maxEntries ≤ 0) →
        (task_key api_key task_id, ts) ∈ (cleanup_locked cfg st now).completed_at ∧
        (∀ v, (task_key api_key task_id, v) ∈ st.cache →
          (task_key api_key task_id, v) ∈ (cleanup_locked cfg st now).cache) ∧
        (∀ e, (task_key api_key task_id, e) ∈ st.errors →
          (task_key api_key task_id, e) ∈ (cleanup_locked cfg st now).errors))) ∧
    (∃ S : List String,
      (∀ p : String × ℤ,
        p ∈ (cleanup_locked cfg st now).completed_at ↔ p ∈ st.completed_at ∧ p.1 ∉ S) ∧
      (∀ p : String × String × String,
        p ∈ (cleanup_locked cfg st now).cache ↔ p ∈ st.cache ∧ p.1 ∉ S) ∧
      (∀ p : String × String,
        p ∈ (cleanup_locked cfg st now).errors ↔ p ∈ st.errors ∧ p.1 ∉ S)) := by
  refine ⟨?_, ?_, ?_⟩
  · intro hage
    have hexp : task_key api_key task_id ∈ expiredKeys cfg st now := by
      refine List.mem_map_of_mem Prod.fst (List.mem_filter.mpr ⟨hmem, ?_⟩)
      simpa using hage
    have h1 : task_key api_key task_id ∉ akeys (ttlSweep cfg st now).completed_at := by
      intro hk
      rcases mem_akeys_iff.mp hk with ⟨v, hv⟩
      have := (mem_removeKeys_completed.mp hv).2
      exact this hexp
    have h1c : task_key api_key task_id ∉ akeys (ttlSweep cfg st now).cache := by
      intro hk
      rcases mem_akeys_iff.mp hk with ⟨v, hv⟩
      exact (mem_removeKeys_cache.mp hv).2 hexp
    have h1e : task_key api_key task_id ∉ akeys (ttlSweep cfg st now).errors := by
      intro hk
      rcases mem_akeys_iff.mp hk with ⟨v, hv⟩
      exact (mem_removeKeys_errors.mp hv).2 hexp
    have h2 : task_key api_key task_id ∉ akeys (cleanup_locked cfg st now).completed_at := by
      intro hk
      rcases mem_akeys_iff.mp hk with ⟨v, hv⟩
      exact h1 (mem_akeys_iff.mpr ⟨v, capSweep_completed_sub hv⟩)
    have h2c : task_key api_key task_id ∉ akeys (cleanup_locked cfg st now).cache := by
      intro hk
      rcases mem_akeys_iff.mp hk with ⟨v, hv⟩
      exact h1c (mem_akeys_iff.mpr ⟨v, capSweep_cache_sub hv⟩)
    have h2e : task_key api_key task_id ∉ akeys (cleanup_locked cfg st now).errors := by
      intro hk
      rcases mem_akeys_iff.mp hk with ⟨v, hv⟩
      exact h1e (mem_akeys_iff.mpr ⟨v, capSweep_errors_sub hv⟩)
    refine ⟨h2, h2c, h2e, ?_⟩
    intro hpend
    have hlc : List.lookup (task_key api_key task_id)
        (cleanup_locked cfg st now).cache = none := (lookup_eq_none_iff _ _).mpr h2c
    have hle : List.lookup (task_key api_key task_id)
        (cleanup_locked cfg st now).errors = none := (lookup_eq_none_iff _ _).mpr h2e
    have hp : task_key api_key task_id ∉ (cleanup_locked cfg st now).pending := by
      rw [cleanup_pending]; exact hpend
    simp only [get_status, hlc, hle]
    rw [if_neg (by rw [bool_false_of_not (contains_iff _ _) hp]; simp)]
  · intro hage
    have hknot : task_key api_key task_id ∉ expiredKeys cfg st now := by
      intro hk
      rcases List.mem_map.mp hk with ⟨p, hp, hfst⟩
      have hpm := List.mem_filter.mp hp
      have hts : p.2 = ts := by
        have : (task_key api_key task_id, p.2) ∈ st.completed_at := by
          have : p = (task_key api_key task_id, p.2) := by
            rw [← hfst]
          rw [← this]; exact hpm.1
        exact nodup_keys_eq hnd this hmem
      rw [hts] at hpm
      exact hage (by simpa using hpm.2)
    have hbool : (!(expiredKeys cfg st now).contains (task_key api_key task_id)) = true := by
      rw [bool_false_of_not (contains_iff _ _) hknot]
      rfl
    have hsurv : (task_key api_key task_id, ts) ∈ (ttlSweep cfg st now).completed_at :=
      mem_removeKeys_completed.mpr ⟨hmem, fun hc => hknot hc⟩
    refine ⟨hsurv, ?_⟩
    intro hcap
    have hnocap : cleanup_locked cfg st now = ttlSweep cfg st now := by
      unfold cleanup_locked capSweep
      rw [if_neg]
      rintro ⟨hpos, hlen⟩
      rcases hcap with h | h
      · omega
      · omega
    rw [hnocap]
    refine ⟨hsurv, ?_, ?_⟩
    · intro v hv
      exact mem_removeKeys_cache.mpr ⟨hv, fun hc => hknot hc⟩
    · intro e he
      exact mem_removeKeys_errors.mpr ⟨he, fun hc => hknot hc⟩
  · by_cases hc : cfg.maxEntries > 0 ∧
        (((ttlSweep cfg st now).completed_at.length : ℤ) > cfg.maxEntries)
    · refine ⟨expiredKeys cfg st now ++
        ((List.insertionSort byTimestamp (ttlSweep cfg st now).completed_at).take
          ((ttlSweep cfg st now).completed_at.length - cfg.maxEntries.toNat)).map Prod.fst,
        ?_, ?_, ?_⟩
      · intro p
        have hb : cleanup_locked cfg st now =
            removeKeys (ttlSweep cfg st now)
              (((List.insertionSort byTimestamp (ttlSweep cfg st now).completed_at).take
                ((ttlSweep cfg st now).completed_at.length - cfg.maxEntries.toNat)).map
                  Prod.fst) := by
          unfold cleanup_locked capSweep
          rw [if_pos hc]
        rw [hb, mem_removeKeys_completed]
        simp only [ttlSweep]
        rw [mem_removeKeys_completed]
        simp [List.mem_append]
        tauto
      · intro p
        have hb : cleanup_locked cfg st now =
            removeKeys (ttlSweep cfg st now)
              (((List.insertionSort byTimestamp (ttlSweep cfg st now).completed_at).take
                ((ttlSweep cfg st now).completed_at.length - cfg.maxEntries.toNat)).map
                  Prod.fst) := by
          unfold cleanup_locked capSweep
          rw [if_pos hc]
        rw [hb, mem_removeKeys_cache]
        simp only [ttlSweep]
        rw [mem_removeKeys_cache]
        simp [List.mem_append]
        tauto
      · intro p
        have hb : cleanup_locked cfg st now =
            removeKeys (ttlSweep cfg st now)
              (((List.insertionSort byTimestamp (ttlSweep cfg st now).completed_at).take
                ((ttlSweep cfg st now).completed_at.length - cfg.maxEntries.toNat)).map
                  Prod.fst) := by
          unfold cleanup_locked capSweep
          rw [if_pos hc]
        rw [hb, mem_removeKeys_errors]
        simp only [ttlSweep]
        rw [mem_removeKeys_errors]
        simp [List.mem_append]
        tauto
    · refine ⟨expiredKeys cfg st now, ?_, ?_, ?_⟩
      all_goals
        have hb : cleanup_locked cfg st now = ttlSweep cfg st now := by
          unfold cleanup_locked capSweep
          rw [if_neg hc]
        rw [hb]
        intro p
        simp only [ttlSweep]
      · rw [mem_removeKeys_completed]
      · rw [mem_removeKeys_cache]
      · rw [mem_removeKeys_errors]

/-- Witness for C6: an entry of age 601 against the default TTL of 600 is
removed by the sweep and the key is reported not-found. -/
theorem C6_witness :
    ((601 : ℤ) - 0 > defaultConfig.taskTtlSeconds) ∧
    ((task_key "a" "t", (0 : ℤ)) ∈
      (OcrState.mk [(task_key "a" "t", ("c", "r"))] [] [] [(task_key "a" "t", 0)]).completed_at) ∧
    (get_status defaultConfig
      ⟨[(task_key "a" "t", ("c", "r"))], [], [], [(task_key "a" "t", 0)]⟩
      "t" "a" 601).1 = .notFound := by
  have hnd : (akeys (OcrState.mk [(task_key "a" "t", ("c", "r"))] [] []
      [(task_key "a" "t", 0)]).completed_at).Nodup := by
    simp [akeys]
  have hmem : (task_key "a" "t", (0 : ℤ)) ∈
      (OcrState.mk [(task_key "a" "t", ("c", "r"))] [] []
        [(task_key "a" "t", 0)]).completed_at := by
    simp
  refine ⟨by decide, hmem, ?_⟩
  exact ((C6_ttl_eviction defaultConfig
    ⟨[(task_key "a" "t", ("c", "r"))], [], [], [(task_key "a" "t", 0)]⟩
    601 "t" "a" 0 hnd hmem).1 (by decide)).2.2.2 (by simp)

/-! ## Claim C9: submit never raises; backend failures become Failed records -/

theorem ainsert_self_mem {α : Type} (l : List (String × α)) (k : String) (v : α) :
    (k, v) ∈ ainsert l k v :=
  lookup_some_mem (lookup_ainsert_self l k v)

theorem akeys_ainsert_nodup {α : Type} {l : List (String × α)} (k : String) (v : α)
    (hnd : (akeys l).Nodup) : (akeys (ainsert l k v)).Nodup := by
  induction l with
  | nil => simp [ainsert, akeys]
  | cons p t ih =>
    obtain ⟨a, b⟩ := p
    simp only [akeys, List.map_cons, List.nodup_cons] at hnd
    by_cases h : a = k
    · subst h
      rw [ainsert, if_pos rfl]
      simp only [akeys, List.map_cons, List.nodup_cons]
      exact hnd
    · simp only [ainsert, if_neg h, akeys, List.map_cons, List.nodup_cons]
      refine ⟨?_, ih hnd.2⟩
      intro hka
      rcases (mem_akeys_ainsert t a k v).mp hka with h1 | h1
      · exact h h1
      · exact hnd.1 h1

theorem mem_lookup_of_nodup {α : Type} {l : List (String × α)} {k : String} {v : α}
    (hnd : (akeys l).Nodup) (h : (k, v) ∈ l) : List.lookup k l = some v := by
  induction l with
  | nil => simp at h
  | cons p t ih =>
    obtain ⟨a, b⟩ := p
    simp only [akeys, List.map_cons, List.nodup_cons] at hnd
    rcases List.mem_cons.mp h with h1 | h1
    · rw [Prod.mk.injEq] at h1
      rw [h1.1, List.lookup, beq_self_eq_true]
      rw [h1.2]
    · have hka : ¬ k = a := by
        intro he
        exact hnd.1 (he ▸ List.mem_map_of_mem Prod.fst h1)
      rw [List.lookup, beq_false_of_ne hka]
      exact ih hnd.2 h1

/-- The stored failure record survives the sweep that runs in the same
critical section, provided the TTL is nonnegative (the fresh entry has
age zero) and the finished count stays within a positive capacity. -/
theorem storeError_lookup (cfg : OcrConfig) (stb : OcrState) (k msg : String) (now : ℤ)
    (hndT : (akeys stb.completed_at).Nodup) (hndE : (akeys stb.errors).Nodup)
    (httl : 0 ≤ cfg.taskTtlSeconds)
    (hcap : (((ttlSweep cfg
        { stb with
          errors := ainsert stb.errors k msg
          completed_at := ainsert stb.completed_at k now } now).completed_at.length : ℤ) ≤
        cfg.maxEntries ∨ cfg.maxEntries ≤ 0)) :
    List.lookup k (cleanup_locked cfg
      { stb with
        errors := ainsert stb.errors k msg
        completed_at := ainsert stb.completed_at k now } now).errors = some msg := by
  set stX : OcrState :=
    { stb with
      errors := ainsert stb.errors k msg
      completed_at := ainsert stb.completed_at k now } with hstX
  have hndT' : (akeys stX.completed_at).Nodup := akeys_ainsert_nodup k now hndT
  have hknot : k ∉ expiredKeys cfg stX now := by
    intro hk
    rcases List.mem_map.mp hk with ⟨p, hp, hfst⟩
    have hpm := List.mem_filter.mp hp
    have hpk : (k, p.2) ∈ stX.completed_at := by
      have hpe : p = (k, p.2) := by rw [← hfst]
      rw [← hpe]
      exact hpm.1
    have hself : (k, now) ∈ stX.completed_at := ainsert_self_mem stb.completed_at k now
    have hts : p.2 = now := nodup_keys_eq hndT' hpk hself
    rw [hts] at hpm
    have : now - now > cfg.taskTtlSeconds := by simpa using hpm.2
    omega
  have hmemE : (k, msg) ∈ (ttlSweep cfg stX now).errors :=
    mem_removeKeys_errors.mpr ⟨ainsert_self_mem stb.errors k msg, hknot⟩
  have hnocap : cleanup_locked cfg stX now = ttlSweep cfg stX now := by
    unfold cleanup_locked capSweep
    rw [if_neg]
    rintro ⟨hpos, hlen⟩
    rcases hcap with h | h
    · omega
    · omega
  rw [hnocap]
  have hndE' : (akeys (ttlSweep cfg stX now).errors).Nodup := by
    have heq : (ttlSweep cfg stX now).errors =
        stX.errors.filter (fun kv => !(expiredKeys cfg stX now).contains kv.1) := rfl
    rw [heq]
    exact akeys_filter_nodup _ (akeys_ainsert_nodup k msg hndE)
  exact mem_lookup_of_nodup hndE' hmemE

/-- C9: `submit` is total and never consults the backend — on every input
it returns the image digest as the task id (the outcome of the background
call is not even an input of `submit`); a backend timeout is recorded by
the background unit of work as a Failed record carrying the timeout
description, and any other backend error as a Failed record carrying its
message verbatim, rather than being raised (the stored record survives
the in-section sweep under a nonnegative TTL and within a positive
capacity). -/
theorem C9_errors_captured (cfg : OcrConfig) (st : OcrState) (img_data : List Nat)
    (api_key : String) (force_retry : Bool) (now : ℤ) :
    ((submit cfg st img_data api_key force_retry now).1 = image_hash img_data) ∧
    (∀ (stb : OcrState) (k : String),
      (akeys stb.completed_at).Nodup → (akeys stb.errors).Nodup →
      0 ≤ cfg.taskTtlSeconds →
      ((((ttlSweep cfg
          { stb with
            errors := ainsert stb.errors k (timeoutMessage cfg)
            completed_at := ainsert stb.completed_at k now } now).completed_at.length : ℤ) ≤
          cfg.maxEntries ∨ cfg.maxEntries ≤ 0)) →
      List.lookup k (runTask cfg stb k .timedOut now).errors = some (timeoutMessage cfg)) ∧
    (∀ (stb : OcrState) (k m : String),
      (akeys stb.completed_at).Nodup → (akeys stb.errors).Nodup →
      0 ≤ cfg.taskTtlSeconds →
      ((((ttlSweep cfg
          { stb with
            errors := ainsert stb.errors k m
            completed_at := ainsert stb.completed_at k now } now).completed_at.length : ℤ) ≤
          cfg.maxEntries ∨ cfg.maxEntries ≤ 0)) →
      List.lookup k (runTask cfg stb k (.failed m) now).errors = some m) := by
  refine ⟨?_, ?_, ?_⟩
  · simp only [submit]
    split
    · rfl
    · split
      · rfl
      · split
        · rfl
        · rfl
  · intro stb k hndT hndE httl hcap
    have : (runTask cfg stb k .timedOut now).errors =
        (cleanup_locked cfg
          { stb with
            errors := ainsert stb.errors k (timeoutMessage cfg)
            completed_at := ainsert stb.completed_at k now } now).errors := rfl
    rw [this]
    exact storeError_lookup cfg stb k (timeoutMessage cfg) now hndT hndE httl hcap
  · intro stb k m hndT hndE httl hcap
    have : (runTask cfg stb k (.failed m) now).errors =
        (cleanup_locked cfg
          { stb with
            errors := ainsert stb.errors k m
            completed_at := ainsert stb.completed_at k now } now).errors := rfl
    rw [this]
    exact storeError_lookup cfg stb k m now hndT hndE httl hcap

/-- Witness for C9: on the empty store a timed-out background task leaves
a Failed record with the timeout description, and `submit` returns the
image digest. -/
theorem C9_witness :
    (submit defaultConfig OcrState.empty [3] "a" false 0).1 = image_hash [3] ∧
    (akeys OcrState.empty.completed_at).Nodup ∧
    (akeys OcrState.empty.errors).Nodup ∧
    ((0 : ℤ) ≤ defaultConfig.taskTtlSeconds) ∧
    (((ttlSweep defaultConfig
        { OcrState.empty with
          errors := ainsert OcrState.empty.errors (task_key "a" (image_hash [3]))
            (timeoutMessage defaultConfig)
          completed_at := ainsert OcrState.empty.completed_at (task_key "a" (image_hash [3]))
            0 } 0).completed_at.length : ℤ) ≤ defaultConfig.maxEntries ∨
      defaultConfig.maxEntries ≤ 0) ∧
    List.lookup (task_key "a" (image_hash [3]))
      (runTask defaultConfig OcrState.empty (task_key "a" (image_hash [3]))
        .timedOut 0).errors = some (timeoutMessage defaultConfig) := by
  have hndT : (akeys OcrState.empty.completed_at).Nodup := by simp [OcrState.empty, akeys]
  have hndE : (akeys OcrState.empty.errors).Nodup := by simp [OcrState.empty, akeys]
  have httl : (0 : ℤ) ≤ defaultConfig.taskTtlSeconds := by decide
  have hcap : (((ttlSweep defaultConfig
      { OcrState.empty with
        errors := ainsert OcrState.empty.errors (task_key "a" (image_hash [3]))
          (timeoutMessage defaultConfig)
        completed_at := ainsert OcrState.empty.completed_at (task_key "a" (image_hash [3]))
          0 } 0).completed_at.length : ℤ) ≤ defaultConfig.maxEntries ∨
      defaultConfig.maxEntries ≤ 0) := by
    left
    simp [ttlSweep, removeKeys, expiredKeys, OcrState.empty, ainsert, defaultConfig,
      List.filter]
  exact ⟨(C9_errors_captured defaultConfig OcrState.empty [3] "a" false 0).1,
    hndT, hndE, httl, hcap,
    (C9_errors_captured defaultConfig OcrState.empty [3] "a" false 0).2.1
      OcrState.empty (task_key "a" (image_hash [3])) hndT hndE httl hcap⟩

/-! ## Claim C7: key derivation -/

theorem w32DigitsBE_lt {w d : Nat} (h : d ∈ w32DigitsBE w) : d < 16 := by
  simp only [w32DigitsBE, List.mem_cons, List.not_mem_nil, or_false] at h
  rcases h with h | h | h | h | h | h | h | h <;> subst h <;> exact Nat.mod_lt _ (by omega)

theorem sha256HexDigits_length (s : String) : (sha256HexDigits s).length = 64 := by
  simp [sha256HexDigits, w32DigitsBE]

theorem sha256HexDigits_lt (s : String) : ∀ d ∈ sha256HexDigits s, d < 16 := by
  intro d hd
  simp only [sha256HexDigits, List.mem_append] at hd
  rcases hd with ((((((h | h) | h) | h) | h) | h) | h) | h <;> exact w32DigitsBE_lt h

theorem sha256Hex_length (s : String) : (sha256Hex s).data.length = 64 := by
  show ((sha256HexDigits s).map hexChar).length = 64
  rw [List.length_map, sha256HexDigits_length]

theorem digitsVal_lt : ∀ l : List Nat, (∀ d ∈ l, d < 16) → digitsVal l < 16 ^ l.length
  | [], _ => by simp [digitsVal]
  | d :: t, h => by
    have ht := digitsVal_lt t (fun x hx => h x (List.mem_cons_of_mem _ hx))
    have hd := h d (List.mem_cons_self d t)
    simp only [digitsVal, List.length_cons, pow_succ]
    omega

theorem digitsVal_inj : ∀ l1 l2 : List Nat, l1.length = l2.length →
    (∀ d ∈ l1, d < 16) → (∀ d ∈ l2, d < 16) → digitsVal l1 = digitsVal l2 → l1 = l2
  | [], [], _, _, _, _ => rfl
  | [], b :: t2, hlen, _, _, _ => by simp at hlen
  | a :: t1, [], hlen, _, _, _ => by simp at hlen
  | a :: t1, b :: t2, hlen, h1, h2, hv => by
    have ha := h1 a (List.mem_cons_self a t1)
    have hb := h2 b (List.mem_cons_self b t2)
    simp only [digitsVal] at hv
    have hab : a = b := by omega
    have htv : digitsVal t1 = digitsVal t2 := by omega
    have := digitsVal_inj t1 t2 (by simpa using hlen)
      (fun x hx => h1 x (List.mem_cons_of_mem _ hx))
      (fun x hx => h2 x (List.mem_cons_of_mem _ hx)) htv
    rw [hab, this]

theorem digestBound_eq : digestBound = 16 ^ 64 := by norm_num [digestBound]

/-- Pigeonhole for any fixed-size hex-digest family: some two distinct
strings collide. Stated abstractly so that the concrete digest function
never has to be normalised. -/
theorem digest_family_collision (f : String → List Nat)
    (hlen : ∀ s, (f s).length = 64) (hlt : ∀ s, ∀ d ∈ f s, d < 16) :
    ∃ c1 c2 : String, c1 ≠ c2 ∧ f c1 = f c2 := by
  have hbound : ∀ n : ℕ, digitsVal (f (String.mk (List.replicate n 'a'))) < digestBound := by
    intro n
    have h1 := digitsVal_lt (f (String.mk (List.replicate n 'a')))
      (hlt (String.mk (List.replicate n 'a')))
    rw [hlen] at h1
    rw [digestBound_eq]
    exact h1
  obtain ⟨n1, n2, hne, heq⟩ := Finite.exists_ne_map_eq_of_infinite
    (fun n : ℕ => (⟨digitsVal (f (String.mk (List.replicate n 'a'))),
      hbound n⟩ : Fin digestBound))
  refine ⟨String.mk (List.replicate n1 'a'), String.mk (List.replicate n2 'a'), ?_, ?_⟩
  · intro hc
    apply hne
    have hlen' : (List.replicate n1 'a').length = (List.replicate n2 'a').length := by
      have hd : (String.mk (List.replicate n1 'a')).data =
          (String.mk (List.replicate n2 'a')).data := by rw [hc]
      simpa using congrArg List.length hd
    simpa using hlen'
  · refine digitsVal_inj _ _ ?_ (hlt _) (hlt _) ?_
    · rw [hlen, hlen]
    · exact congrArg Fin.val heq

/-- C7, counterexample to the injectivity part: the credential digest has
a fixed 64-hex-digit size, so by the pigeonhole principle two *different*
credentials exist whose SHA-256 digests, and hence whose internal task
keys, coincide for every image hash. The claim's universally quantified
"two different credentials yield different internal keys" is therefore
false (no explicit colliding pair is known, but one must exist). -/
theorem C7_counterexample :
    ¬ ∀ (c1 c2 img : String), c1 ≠ c2 → task_key c1 img ≠ task_key c2 img := by
  intro hall
  obtain ⟨c1, c2, hne, heq⟩ := digest_family_collision sha256HexDigits
    sha256HexDigits_length sha256HexDigits_lt
  have hhex : sha256Hex c1 = sha256Hex c2 := by
    unfold sha256Hex
    rw [heq]
  exact hall c1 c2 "" hne (by unfold task_key; rw [hhex])

/-- C7 (amended): key derivation is a pure function of the credential and
the image bytes; credentials whose SHA-256 hex digests differ yield
different internal keys for every image hash (full injectivity in the
credential cannot hold: a 256-bit digest must collide on some pair of
distinct credentials); and the externally visible task id returned by
`submit` is the hex MD5 content digest of the image bytes alone, the same
for every credential. -/
theorem C7_key_derivation (cfg : OcrConfig) (st1 st2 : OcrState) (img_data : List Nat)
    (c1 c2 : String) (f1 f2 : Bool) (now1 now2 : ℤ) :
    (sha256Hex c1 ≠ sha256Hex c2 → ∀ img : String, task_key c1 img ≠ task_key c2 img) ∧
    ((submit cfg st1 img_data c1 f1 now1).1 = md5Hex img_data ∧
      (submit cfg st2 img_data c2 f2 now2).1 = (submit cfg st1 img_data c1 f1 now1).1) := by
  constructor
  · intro hne img hkey
    apply hne
    unfold task_key at hkey
    have hdata := congrArg String.data hkey
    have happ : (sha256Hex c1).data ++ (":" ++ img).data =
        (sha256Hex c2).data ++ (":" ++ img).data := by
      simpa [String.append_assoc] using hdata
    have := (List.append_inj happ (by rw [sha256Hex_length, sha256Hex_length])).1
    exact String.ext this
  · constructor
    · have : (submit cfg st1 img_data c1 f1 now1).1 = image_hash img_data := by
        simp only [submit]
        split
        · rfl
        · split
          · rfl
          · split
            · rfl
            · rfl
      exact this
    · have h2 : (submit cfg st2 img_data c2 f2 now2).1 = image_hash img_data := by
        simp only [submit]
        split
        · rfl
        · split
          · rfl
          · split
            · rfl
            · rfl
      have h1 : (submit cfg st1 img_data c1 f1 now1).1 = image_hash img_data := by
        simp only [submit]
        split
        · rfl
        · split
          · rfl
          · split
            · rfl
            · rfl
      rw [h1, h2]

/-- Witness for C7: the credentials "a" and "b" have different digests
and so different internal keys for the same image. -/
theorem C7_witness :
    sha256Hex "a" ≠ sha256Hex "b" ∧
    task_key "a" "deadbeef" ≠ task_key "b" "deadbeef" ∧
    (submit defaultConfig OcrState.empty [7] "a" false 0).1 = md5Hex [7] := by
  have hne : sha256Hex "a" ≠ sha256Hex "b" := by decide
  exact ⟨hne,
    (C7_key_derivation defaultConfig OcrState.empty OcrState.empty [7] "a" "b"
      false false 0 0).1 hne "deadbeef",
    (C7_key_derivation defaultConfig OcrState.empty OcrState.empty [7] "a" "b"
      false false 0 0).2.1⟩

/-! ## Claim C2: record exclusivity across interleavings -/

theorem get_status_state (cfg : OcrConfig) (st : OcrState) (task_id api_key : String)
    (now : ℤ) : (get_status cfg st task_id api_key now).2 = cleanup_locked cfg st now := by
  simp only [get_status]
  cases List.lookup (task_key api_key task_id) (cleanup_locked cfg st now).cache with
  | some p => obtain ⟨c, r⟩ := p; rfl
  | none =>
    by_cases hp : (cleanup_locked cfg st now).pending.contains (task_key api_key task_id) = true
    · rw [if_pos hp]
    · rw [if_neg hp]
      cases List.lookup (task_key api_key task_id) (cleanup_locked cfg st now).errors with
      | some e => rfl
      | none => rfl

/-- Case analysis of `submit`'s critical section: either it returns over
the swept state with no new task, or the key is absent from cache and
pending and it starts one. -/
theorem submit_cases (cfg : OcrConfig) (st : OcrState) (img_data : List Nat)
    (api_key : String) (force_retry : Bool) (now : ℤ) :
    submit cfg st img_data api_key force_retry now =
      (image_hash img_data, cleanup_locked cfg st now, false) ∨
    (task_key api_key (image_hash img_data) ∉ akeys (cleanup_locked cfg st now).cache ∧
     task_key api_key (image_hash img_data) ∉ (cleanup_locked cfg st now).pending ∧
     submit cfg st img_data api_key force_retry now =
       (image_hash img_data,
        { cleanup_locked cfg st now with
          errors := aerase (cleanup_locked cfg st now).errors
            (task_key api_key (image_hash img_data))
          pending := (cleanup_locked cfg st now).pending ++
            [task_key api_key (image_hash img_data)] },
        true)) := by
  simp only [submit]
  split
  · left; rfl
  · split
    · left; rfl
    · split
      · left; rfl
      · right
        rename_i h1 h2 h3
        have hc : task_key api_key (image_hash img_data) ∉
            akeys (cleanup_locked cfg st now).cache :=
          fun hm => h1 ((lookup_isSome_iff _ _).mpr hm)
        have hp : task_key api_key (image_hash img_data) ∉
            (cleanup_locked cfg st now).pending :=
          fun hm => h2 ((contains_iff _ _).mpr hm)
        refine ⟨hc, hp, ?_⟩
        rw [pinsert_of_not_mem hp]

/-- Case analysis of `classify`'s first critical section. -/
theorem classifyFirst_cases (cfg : OcrConfig) (st : OcrState) (img_data : List Nat)
    (api_key : String) (now : ℤ) :
    ((classifyFirst cfg st img_data api_key now).2.1 = cleanup_locked cfg st now ∧
     (classifyFirst cfg st img_data api_key now).2.2 = false) ∨
    (task_key api_key (image_hash img_data) ∉ akeys (cleanup_locked cfg st now).cache ∧
     task_key api_key (image_hash img_data) ∉ akeys (cleanup_locked cfg st now).errors ∧
     task_key api_key (image_hash img_data) ∉ (cleanup_locked cfg st now).pending ∧
     classifyFirst cfg st img_data api_key now =
       (none,
        { cleanup_locked cfg st now with
          pending := (cleanup_locked cfg st now).pending ++
            [task_key api_key (image_hash img_data)] },
        true)) := by
  rcases hc : List.lookup (task_key api_key (image_hash img_data))
      (cleanup_locked cfg st now).cache with _ | p
  · rcases he : List.lookup (task_key api_key (image_hash img_data))
        (cleanup_locked cfg st now).errors with _ | e
    · by_cases hp : task_key api_key (image_hash img_data) ∈
          (cleanup_locked cfg st now).pending
      · have heqn : classifyFirst cfg st img_data api_key now =
            (none, cleanup_locked cfg st now, false) := by
          simp only [classifyFirst, hc, he]
          rw [if_pos ((contains_iff _ _).mpr hp)]
        left
        rw [heqn]
        exact ⟨rfl, rfl⟩
      · right
        refine ⟨(lookup_eq_none_iff _ _).mp hc, (lookup_eq_none_iff _ _).mp he, hp, ?_⟩
        simp only [classifyFirst, hc, he]
        rw [if_neg (by rw [bool_false_of_not (contains_iff _ _) hp]; simp),
          pinsert_of_not_mem hp]
    · have heqe : classifyFirst cfg st img_data api_key now =
          (some (.httpError 500 e), cleanup_locked cfg st now, false) := by
        simp only [classifyFirst, hc, he]
      left
      rw [heqe]
      exact ⟨rfl, rfl⟩
  · obtain ⟨c, r⟩ := p
    have heqc : classifyFirst cfg st img_data api_key now =
        (some (.ok c r), cleanup_locked cfg st now, false) := by
      simp only [classifyFirst, hc]
    left
    rw [heqc]
    exact ⟨rfl, rfl⟩

theorem storeOutcome_pending (cfg : OcrConfig) (st : OcrState) (k : String)
    (res : CallResult) (now : ℤ) : (storeOutcome cfg st k res now).pending = st.pending := by
  cases res <;> simp only [storeOutcome] <;> rw [cleanup_pending]

theorem storeOutcome_ok_eq (cfg : OcrConfig) (st : OcrState) (k code raw : String)
    (now : ℤ) :
    storeOutcome cfg st k (CallResult.ok code raw) now =
      cleanup_locked cfg
        { st with
          cache := ainsert st.cache k (code, raw)
          errors := aerase st.errors k
          completed_at := ainsert st.completed_at k now } now := by
  simp only [storeOutcome]

theorem storeOutcome_timedOut_eq (cfg : OcrConfig) (st : OcrState) (k : String) (now : ℤ) :
    storeOutcome cfg st k CallResult.timedOut now =
      cleanup_locked cfg
        { st with
          errors := ainsert st.errors k (timeoutMessage cfg)
          completed_at := ainsert st.completed_at k now } now := by
  simp only [storeOutcome]

theorem storeOutcome_failed_eq (cfg : OcrConfig) (st : OcrState) (k m : String) (now : ℤ) :
    storeOutcome cfg st k (CallResult.failed m) now =
      cleanup_locked cfg
        { st with
          errors := ainsert st.errors k m
          completed_at := ainsert st.completed_at k now } now := by
  simp only [storeOutcome]

theorem storeOutcome_cache_not_mem {cfg : OcrConfig} {st : OcrState} {k k' : String}
    {res : CallResult} {now : ℤ} (hne : k' ≠ k) (h : k' ∉ akeys st.cache) :
    k' ∉ akeys (storeOutcome cfg st k res now).cache := by
  intro hm
  cases res with
  | ok code raw =>
    rw [storeOutcome_ok_eq] at hm
    have h2 := cleanup_akeys_cache_sub hm
    rcases (mem_akeys_ainsert st.cache k' k (code, raw)).mp h2 with h1 | h1
    · exact hne h1
    · exact h h1
  | timedOut =>
    rw [storeOutcome_timedOut_eq] at hm
    have h2 := cleanup_akeys_cache_sub hm
    exact h h2
  | failed m =>
    rw [storeOutcome_failed_eq] at hm
    have h2 := cleanup_akeys_cache_sub hm
    exact h h2

theorem storeOutcome_errors_not_mem {cfg : OcrConfig} {st : OcrState} {k k' : String}
    {res : CallResult} {now : ℤ} (hne : k' ≠ k) (h : k' ∉ akeys st.errors) :
    k' ∉ akeys (storeOutcome cfg st k res now).errors := by
  intro hm
  cases res with
  | ok code raw =>
    rw [storeOutcome_ok_eq] at hm
    have h2 := cleanup_akeys_errors_sub hm
    exact h ((mem_akeys_aerase st.errors k' k).mp h2).1
  | timedOut =>
    rw [storeOutcome_timedOut_eq] at hm
    have h2 := cleanup_akeys_errors_sub hm
    rcases (mem_akeys_ainsert st.errors k' k (timeoutMessage cfg)).mp h2 with h1 | h1
    · exact hne h1
    · exact h h1
  | failed m =>
    rw [storeOutcome_failed_eq] at hm
    have h2 := cleanup_akeys_errors_sub hm
    rcases (mem_akeys_ainsert st.errors k' k m).mp h2 with h1 | h1
    · exact hne h1
    · exact h h1

theorem akeys_map_phase (workers : List (String × WorkerPhase)) (k : String) :
    akeys (workers.map (fun w => if w.1 = k then (k, WorkerPhase.stored) else w)) =
      akeys workers := by
  simp only [akeys, List.map_map]
  apply List.map_congr_left
  intro w _
  by_cases h : w.1 = k
  · simp [Function.comp, h]
  · simp [Function.comp, h]

theorem mem_map_phase_running {workers : List (String × WorkerPhase)} {k k' : String}
    (h : (k', WorkerPhase.running) ∈
      workers.map (fun w => if w.1 = k then (k, WorkerPhase.stored) else w)) :
    k' ≠ k ∧ (k', WorkerPhase.running) ∈ workers := by
  rcases List.mem_map.mp h with ⟨w, hw, hf⟩
  by_cases hwk : w.1 = k
  · rw [if_pos hwk] at hf
    cases hf
  · rw [if_neg hwk] at hf
    subst hf
    exact ⟨hwk, hw⟩

theorem akeys_filter_ne {workers : List (String × WorkerPhase)} {k k' : String} :
    k' ∈ akeys (workers.filter (fun w => w.1 != k)) ↔ k' ∈ akeys workers ∧ k' ≠ k := by
  constructor
  · intro h
    rcases mem_akeys_iff.mp h with ⟨ph, hph⟩
    have := List.mem_filter.mp hph
    exact ⟨mem_akeys_iff.mpr ⟨ph, this.1⟩, by simpa [bne_iff_ne] using this.2⟩
  · rintro ⟨h, hne⟩
    rcases mem_akeys_iff.mp h with ⟨ph, hph⟩
    exact mem_akeys_iff.mpr ⟨ph, List.mem_filter.mpr ⟨hph, by simpa [bne_iff_ne] using hne⟩⟩

theorem storeOutcome_ok_errors_self (cfg : OcrConfig) (st : OcrState)
    (k code raw : String) (now : ℤ) :
    k ∉ akeys (storeOutcome cfg st k (CallResult.ok code raw) now).errors := by
  intro hm
  rw [storeOutcome_ok_eq] at hm
  have h2 := cleanup_akeys_errors_sub hm
  exact ((mem_akeys_aerase st.errors k k).mp h2).2 rfl

theorem storeOutcome_timedOut_cache_not {cfg : OcrConfig} {st : OcrState} {k k' : String}
    {now : ℤ} (h : k' ∉ akeys st.cache) :
    k' ∉ akeys (storeOutcome cfg st k CallResult.timedOut now).cache := by
  intro hm
  rw [storeOutcome_timedOut_eq] at hm
  have h2 := cleanup_akeys_cache_sub hm
  exact h h2

theorem storeOutcome_failed_cache_not {cfg : OcrConfig} {st : OcrState} {k k' m : String}
    {now : ℤ} (h : k' ∉ akeys st.cache) :
    k' ∉ akeys (storeOutcome cfg st k (CallResult.failed m) now).cache := by
  intro hm
  rw [storeOutcome_failed_eq] at hm
  have h2 := cleanup_akeys_cache_sub hm
  exact h h2

theorem akeys_append {α : Type} (l1 l2 : List (String × α)) :
    akeys (l1 ++ l2) = akeys l1 ++ akeys l2 := by
  simp [akeys]

theorem coordInv_init : CoordInv GState.init := by
  constructor
  · intro k
    simp [GState.init, OcrState.empty, akeys]
  · intro k h
    simp [GState.init] at h
  · intro k
    left
    simp [GState.init, OcrState.empty, akeys]

/-- Sweep-only critical sections preserve the invariant. -/
theorem coordInv_cleanup {g : GState} (cfg : OcrConfig) (now : ℤ) (hinv : CoordInv g) :
    CoordInv ⟨cleanup_locked cfg g.ocr now, g.workers⟩ := by
  refine ⟨?_, ?_, ?_⟩
  · intro k
    show k ∈ (cleanup_locked cfg g.ocr now).pending ↔ _
    rw [cleanup_pending]
    exact hinv.pendWork k
  · intro k hw
    have old := hinv.runningClean k hw
    exact ⟨fun hc => old.1 (cleanup_akeys_cache_sub hc),
           fun he => old.2 (cleanup_akeys_errors_sub he)⟩
  · intro k
    rcases hinv.excl k with h | h
    · left
      exact fun hc => h (cleanup_akeys_cache_sub hc)
    · right
      exact fun he => h (cleanup_akeys_errors_sub he)

/-- Starting a fresh background worker preserves the invariant. -/
theorem coordInv_start {g : GState} (cfg : OcrConfig) (now : ℤ) (k0 : String)
    (errs' : List (String × String)) (hinv : CoordInv g)
    (hkc : k0 ∉ akeys (cleanup_locked cfg g.ocr now).cache)
    (hkp : k0 ∉ (cleanup_locked cfg g.ocr now).pending)
    (hsub : ∀ k', k' ∈ akeys errs' → k' ∈ akeys (cleanup_locked cfg g.ocr now).errors)
    (hk0 : k0 ∉ akeys errs') :
    CoordInv ⟨{ cleanup_locked cfg g.ocr now with
        errors := errs'
        pending := (cleanup_locked cfg g.ocr now).pending ++ [k0] },
      g.workers ++ [(k0, WorkerPhase.running)]⟩ := by
  refine ⟨?_, ?_, ?_⟩
  · intro k
    show k ∈ (cleanup_locked cfg g.ocr now).pending ++ [k0] ↔
      k ∈ akeys (g.workers ++ [(k0, WorkerPhase.running)])
    rw [akeys_append, List.mem_append, List.mem_append, cleanup_pending]
    constructor
    · rintro (h | h)
      · exact Or.inl ((hinv.pendWork k).mp h)
      · right
        simpa [akeys] using h
    · rintro (h | h)
      · exact Or.inl ((hinv.pendWork k).mpr h)
      · right
        simpa [akeys] using h
  · intro k hw
    rcases List.mem_append.mp hw with hw' | hw'
    · have old := hinv.runningClean k hw'
      exact ⟨fun hc => old.1 (cleanup_akeys_cache_sub hc),
             fun he => old.2 (cleanup_akeys_errors_sub (hsub k he))⟩
    · have hk : k = k0 := by simpa using congrArg Prod.fst (List.mem_singleton.mp hw')
      subst hk
      exact ⟨hkc, hk0⟩
  · intro k
    by_cases hk : k ∈ akeys errs'
    · left
      intro hc
      rcases hinv.excl k with h | h
      · exact h (cleanup_akeys_cache_sub hc)
      · exact h (cleanup_akeys_errors_sub (hsub k hk))
    · right
      exact hk

/-- The first critical section of `_run_task` preserves the invariant. -/
theorem coordInv_result {g : GState} (cfg : OcrConfig) (k : String) (res : CallResult)
    (now : ℤ) (hinv : CoordInv g) (hw : (k, WorkerPhase.running) ∈ g.workers) :
    CoordInv ⟨storeOutcome cfg g.ocr k res now,
      g.workers.map (fun w => if w.1 = k then (k, WorkerPhase.stored) else w)⟩ := by
  have hclean := hinv.runningClean k hw
  refine ⟨?_, ?_, ?_⟩
  · intro k'
    show k' ∈ (storeOutcome cfg g.ocr k res now).pending ↔ _
    rw [storeOutcome_pending, akeys_map_phase]
    exact hinv.pendWork k'
  · intro k' hw'
    rcases mem_map_phase_running hw' with ⟨hne, hw''⟩
    have old := hinv.runningClean k' hw''
    exact ⟨storeOutcome_cache_not_mem hne old.1, storeOutcome_errors_not_mem hne old.2⟩
  · intro k'
    by_cases hne : k' = k
    · subst hne
      cases res with
      | ok code raw =>
        right
        exact storeOutcome_ok_errors_self cfg g.ocr k' code raw now
      | timedOut =>
        left
        exact storeOutcome_timedOut_cache_not hclean.1
      | failed m =>
        left
        exact storeOutcome_failed_cache_not hclean.1
    · rcases hinv.excl k' with h | h
      · left
        exact storeOutcome_cache_not_mem hne h
      · right
        exact storeOutcome_errors_not_mem hne h

/-- The `finally` critical section of `_run_task` preserves the invariant. -/
theorem coordInv_finally {g : GState} (k : String) (hinv : CoordInv g) :
    CoordInv ⟨popPending g.ocr k, g.workers.filter (fun w => w.1 != k)⟩ := by
  refine ⟨?_, ?_, ?_⟩
  · intro k'
    show k' ∈ g.ocr.pending.filter (fun x => x != k) ↔
      k' ∈ akeys (g.workers.filter (fun w => w.1 != k))
    rw [akeys_filter_ne]
    constructor
    · intro h
      have hm := List.mem_filter.mp h
      exact ⟨(hinv.pendWork k').mp hm.1, by simpa [bne_iff_ne] using hm.2⟩
    · rintro ⟨h, hne⟩
      exact List.mem_filter.mpr ⟨(hinv.pendWork k').mpr h, by simpa [bne_iff_ne] using hne⟩
  · intro k' hw'
    exact hinv.runningClean k' (List.mem_filter.mp hw').1
  · intro k'
    exact hinv.excl k'

theorem coordInv_step (cfg : OcrConfig) {g g' : GState} (hinv : CoordInv g)
    (hs : CStep cfg g g') : CoordInv g' := by
  cases hs with
  | submit img_data api_key force_retry now =>
    rcases submit_cases cfg g.ocr img_data api_key force_retry now with heq | ⟨hkc, hkp, heq⟩
    · have hg : submitG cfg g img_data api_key force_retry now =
          ⟨cleanup_locked cfg g.ocr now, g.workers⟩ := by
        unfold submitG
        rw [heq]
        rfl
      rw [hg]
      exact coordInv_cleanup cfg now hinv
    · have hg : submitG cfg g img_data api_key force_retry now =
          ⟨{ cleanup_locked cfg g.ocr now with
              errors := aerase (cleanup_locked cfg g.ocr now).errors
                (task_key api_key (image_hash img_data))
              pending := (cleanup_locked cfg g.ocr now).pending ++
                [task_key api_key (image_hash img_data)] },
            g.workers ++ [(task_key api_key (image_hash img_data), WorkerPhase.running)]⟩ := by
        unfold submitG
        rw [heq]
        rfl
      rw [hg]
      exact coordInv_start cfg now (task_key api_key (image_hash img_data))
        (aerase (cleanup_locked cfg g.ocr now).errors (task_key api_key (image_hash img_data)))
        hinv hkc hkp
        (fun k' hk' => ((mem_akeys_aerase _ k' _).mp hk').1)
        (fun hk => ((mem_akeys_aerase _ _ _).mp hk).2 rfl)
  | classifyFirst img_data api_key now =>
    rcases classifyFirst_cases cfg g.ocr img_data api_key now with ⟨h1, h2⟩ | ⟨hkc, hke, hkp, heq⟩
    · have hg : classifyFirstG cfg g img_data api_key now =
          ⟨cleanup_locked cfg g.ocr now, g.workers⟩ := by
        simp only [classifyFirstG]
        rw [h1, h2]
        simp
      rw [hg]
      exact coordInv_cleanup cfg now hinv
    · have hg : classifyFirstG cfg g img_data api_key now =
          ⟨{ cleanup_locked cfg g.ocr now with
              pending := (cleanup_locked cfg g.ocr now).pending ++
                [task_key api_key (image_hash img_data)] },
            g.workers ++ [(task_key api_key (image_hash img_data), WorkerPhase.running)]⟩ := by
        simp only [classifyFirstG]
        rw [heq]
        rfl
      rw [hg]
      have hres := coordInv_start cfg now (task_key api_key (image_hash img_data))
        (cleanup_locked cfg g.ocr now).errors hinv hkc hkp (fun _ h => h) hke
      exact hres
  | result k res now hw =>
    have hg : resultG cfg g k res now =
        ⟨storeOutcome cfg g.ocr k res now,
          g.workers.map (fun w => if w.1 = k then (k, WorkerPhase.stored) else w)⟩ := rfl
    rw [hg]
    exact coordInv_result cfg k res now hinv hw
  | finallyStep k hw =>
    exact coordInv_finally k hinv
  | status task_id api_key now =>
    have hg : statusG cfg g task_id api_key now =
        ⟨cleanup_locked cfg g.ocr now, g.workers⟩ := by
      unfold statusG
      rw [get_status_state]
    rw [hg]
    exact coordInv_cleanup cfg now hinv

theorem coordInv_reach (cfg : OcrConfig) {g : GState} (h : Reach cfg g) : CoordInv g := by
  induction h with
  | init => exact coordInv_init
  | step _ hs ih => exact coordInv_step cfg ih hs

set_option maxRecDepth 100000 in
/-- C2, counterexample: between the two critical sections of the
background unit of work — its result is stored, the lock released, and
the `finally` block has not yet popped the pending record — a reachable
state holds the same key as Pending *and* Completed simultaneously, and
the Pending removal happens in a *separate* critical section rather than
under the same one that stored the result. -/
theorem C2_counterexample :
    Reach defaultConfig
      (resultG defaultConfig (submitG defaultConfig GState.init [] "c" false 0)
        (task_key "c" (image_hash [])) (CallResult.ok "aB3dE" "raw") 0) ∧
    task_key "c" (image_hash []) ∈
      (resultG defaultConfig (submitG defaultConfig GState.init [] "c" false 0)
        (task_key "c" (image_hash [])) (CallResult.ok "aB3dE" "raw") 0).ocr.pending ∧
    task_key "c" (image_hash []) ∈
      akeys (resultG defaultConfig (submitG defaultConfig GState.init [] "c" false 0)
        (task_key "c" (image_hash [])) (CallResult.ok "aB3dE" "raw") 0).ocr.cache := by
  have hw : (task_key "c" (image_hash []), WorkerPhase.running) ∈
      (submitG defaultConfig GState.init [] "c" false 0).workers := by decide
  refine ⟨Reach.step (Reach.step Reach.init
      (CStep.submit GState.init [] "c" false 0))
      (CStep.result _ (task_key "c" (image_hash [])) (CallResult.ok "aB3dE" "raw") 0 hw),
    ?_, ?_⟩
  · decide
  · decide

/-- C2 (amended): in every reachable state of the coordinator — including
the states between the two critical sections of a background unit of work
— at most one of {Completed, Failed} holds for a key, and a key that is
simultaneously Pending and finished can only belong to a worker that has
already stored its outcome and is about to run its `finally` section: the
Pending record is removed as the final step of the unit of work, under
the concurrency gate, but in a critical section of its own, so the
three-way exclusion of the original claim holds except in that window. -/
theorem C2_record_exclusion (cfg : OcrConfig) (g : GState) (h : Reach cfg g)
    (k : String) :
    (k ∉ akeys g.ocr.cache ∨ k ∉ akeys g.ocr.errors) ∧
    (k ∈ g.ocr.pending → (k ∈ akeys g.ocr.cache ∨ k ∈ akeys g.ocr.errors) →
      (k, WorkerPhase.stored) ∈ g.workers) := by
  have hinv := coordInv_reach cfg h
  refine ⟨hinv.excl k, ?_⟩
  intro hp hfin
  have hw : k ∈ akeys g.workers := (hinv.pendWork k).mp hp
  rcases mem_akeys_iff.mp hw with ⟨ph, hph⟩
  cases ph with
  | running =>
    exfalso
    rcases hfin with hc | he
    · exact (hinv.runningClean k hph).1 hc
    · exact (hinv.runningClean k hph).2 he
  | stored => exact hph

/-- Witness for C2 at the initial state. -/
theorem C2_witness :
    ("k" ∉ akeys GState.init.ocr.cache ∨ "k" ∉ akeys GState.init.ocr.errors) ∧
    ("k" ∈ GState.init.ocr.pending →
      ("k" ∈ akeys GState.init.ocr.cache ∨ "k" ∈ akeys GState.init.ocr.errors) →
      ("k", WorkerPhase.stored) ∈ GState.init.workers) :=
  C2_record_exclusion defaultConfig GState.init Reach.init "k"
